import Mathlib

/-!
Verification of the color-token matching engine (`src/code.ts` and
`src/variableCollectionUtils.ts`) against its specification.

Modelling conventions for the shallow embedding:
* JS numbers are modelled as exact rationals (`ℚ`); the Euclidean color
  distance, which the source computes with `Math.sqrt`, is modelled as a real
  number (`Real.sqrt` of the rational squared distance).  All comparisons the
  code performs on such distances are implemented by decidable rational tests
  and proved equivalent to the real-number comparisons.
* JS strings are Lean `String`s.  A template literal such as
  `"r,g,b,a"` joins decimal renderings of numbers with commas; since the JS
  rendering of a number is injective and comma-free, key equality of those
  strings is exactly componentwise equality, so keys are modelled as tuples.
* `Math.round` rounds half toward positive infinity, which is Mathlib's
  `round`.
* Asynchronous host calls are modelled as pure functions supplied by an
  environment record; the one call the scan path can see fail
  (`getLocalVariableCollectionsAsync`) is modelled as `Except String`.
* Mutation of the Figma document by the apply phase is modelled by threading
  an explicit `Doc : String → Option DocNode` map.
-/

/-- RGB color with components in `[0,1]`, as read from paints and variables. -/
structure RGB where
  r : ℚ
  g : ℚ
  b : ℚ
deriving DecidableEq

/-- `roundAlpha` from `code.ts`: `Math.round((a ?? 1) * 100) / 100`. -/
def roundAlpha (a : Option ℚ) : ℚ :=
  ((round ((a.getD 1) * 100) : ℤ) : ℚ) / 100

/-- Exact-match key.  The source builds the string
`r + "," + g + "," + b + "," + roundAlpha a`; JS number rendering is injective
and comma-free, so the string is faithfully modelled by the component tuple. -/
structure ExactKey where
  r : ℚ
  g : ℚ
  b : ℚ
  a2 : ℚ
deriving DecidableEq

/-- `rgbOpacityKey` from `code.ts` (the key of the exact-match index). -/
def rgbOpacityKey (r g b : ℚ) (a : Option ℚ) : ExactKey :=
  ⟨r, g, b, roundAlpha (some (a.getD 1))⟩

/-- `rgbKey` from `code.ts`: the plain RGB key string, modelled as a tuple. -/
def rgbKey (c : RGB) : ℚ × ℚ × ℚ :=
  (c.r, c.g, c.b)

/-- Helper: alpha values whose 2-decimal roundings differ by less than `0.01`
round to the same value (the roundings are integer multiples of `1/100`). -/
theorem roundAlpha_eq_of_abs_sub_lt {a₁ a₂ : ℚ}
    (h : |roundAlpha (some a₁) - roundAlpha (some a₂)| < 1 / 100) :
    roundAlpha (some a₁) = roundAlpha (some a₂) := by
  set x : ℤ := round (a₁ * 100) with hx
  set y : ℤ := round (a₂ * 100) with hy
  have hq : |((x : ℚ) - y)| < 1 := by
    have h' := h
    rw [roundAlpha, roundAlpha] at h'
    simp only [Option.getD_some] at h'
    rw [← hx, ← hy, div_sub_div_same, abs_div,
      show |(100 : ℚ)| = 100 by norm_num] at h'
    linarith
  have hz : |x - y| < 1 := by exact_mod_cast hq
  have hxyeq : x = y := by rw [abs_sub_lt_iff] at hz; omega
  rw [roundAlpha, roundAlpha]
  simp only [Option.getD_some]
  rw [← hx, ← hy, hxyeq]

/-- C1 (amended): two `rgbOpacityKey` keys are equal iff the r, g, b
components are identical and the two alpha values, after each is independently
rounded to 2 decimals, differ by less than `0.01` (equivalently: round to the
same 2-decimal value).  This is the correct part of the claim; the "any two
alpha values within 0.01 of each other get the same key" part is refuted by
`rgbOpacityKey_within_001_not_equal`. -/
theorem rgbOpacityKey_eq_iff (r₁ g₁ b₁ a₁ r₂ g₂ b₂ a₂ : ℚ) :
    rgbOpacityKey r₁ g₁ b₁ (some a₁) = rgbOpacityKey r₂ g₂ b₂ (some a₂) ↔
      r₁ = r₂ ∧ g₁ = g₂ ∧ b₁ = b₂ ∧
        |roundAlpha (some a₁) - roundAlpha (some a₂)| < 1 / 100 := by
  constructor
  · intro h
    rw [rgbOpacityKey, rgbOpacityKey, ExactKey.mk.injEq] at h
    obtain ⟨hr, hg, hb, ha⟩ := h
    simp only [Option.getD_some] at ha
    refine ⟨hr, hg, hb, ?_⟩
    rw [ha]
    simp
  · rintro ⟨hr, hg, hb, ha⟩
    have := roundAlpha_eq_of_abs_sub_lt ha
    rw [rgbOpacityKey, rgbOpacityKey, ExactKey.mk.injEq]
    simp only [Option.getD_some]
    exact ⟨hr, hg, hb, this⟩

/-- C1 (counterexample): the alpha values `0.004` and `0.006` are within
`0.01` of each other, yet they produce different exact-match keys (they round
to `0` and `0.01` respectively), refuting the claim that any two alpha values
within `0.01` of each other are treated as identical for key purposes. -/
theorem rgbOpacityKey_within_001_not_equal :
    |(1 / 250 : ℚ) - 3 / 500| < 1 / 100 ∧
      rgbOpacityKey 0 0 0 (some (1 / 250)) ≠ rgbOpacityKey 0 0 0 (some (3 / 500)) := by
  constructor
  · rw [abs_sub_lt_iff]; norm_num
  · intro h
    have ha := congrArg ExactKey.a2 h
    simp only [rgbOpacityKey, roundAlpha, Option.getD_some] at ha
    rw [show (1 / 250 : ℚ) * 100 = 2 / 5 by norm_num,
      show (3 / 500 : ℚ) * 100 = 3 / 5 by norm_num,
      show round ((2 : ℚ) / 5) = 0 by rw [round_eq]; norm_num,
      show round ((3 : ℚ) / 5) = 1 by rw [round_eq]; norm_num] at ha
    norm_num at ha

/-- Model of JS `String.prototype.trim` whitespace test. -/
def isJsWhitespace (c : Char) : Bool :=
  c.isWhitespace

/-- Model of JS `s.trim()` on the character list of a string. -/
def jsTrim (s : String) : String :=
  ⟨((s.data.dropWhile isJsWhitespace).reverse.dropWhile isJsWhitespace).reverse⟩

/-- Model of JS `s.toLowerCase()` on the character list (ASCII names), so
that it evaluates in the kernel. -/
def jsToLower (s : String) : String :=
  ⟨s.data.map Char.toLower⟩

/-- Model of `hex.replace(/^#/, "")`: drop one leading `#` if present. -/
def stripHash (s : String) : String :=
  if s.data.head? = some '#' then ⟨s.data.tail⟩ else s

/-- Value of a single hex digit as accepted by JS `parseInt(_, 16)`. -/
def hexDigitVal (c : Char) : Option ℕ :=
  if '0' ≤ c ∧ c ≤ '9' then some (c.toNat - '0'.toNat)
  else if 'a' ≤ c ∧ c ≤ 'f' then some (c.toNat - 'a'.toNat + 10)
  else if 'A' ≤ c ∧ c ≤ 'F' then some (c.toNat - 'A'.toNat + 10)
  else none

/-- Longest leading run of hex digits, as values. -/
def leadingHexDigits : List Char → List ℕ
  | [] => []
  | c :: rest =>
    match hexDigitVal c with
    | some d => d :: leadingHexDigits rest
    | none => []

/-- Optional leading sign, as JS `parseInt` accepts it. -/
def stripSign (l : List Char) : ℤ × List Char :=
  if l.head? = some '-' then (-1, l.tail)
  else if l.head? = some '+' then (1, l.tail)
  else (1, l)

/-- Optional leading `0x`/`0X`, as JS `parseInt(_, 16)` accepts it. -/
def strip0x (l : List Char) : List Char :=
  if l.head? = some '0' ∧ (l.tail.head? = some 'x' ∨ l.tail.head? = some 'X')
  then l.tail.tail else l

/-- Model of JS `parseInt(s, 16)`: skip whitespace, optional sign, optional
`0x`, then parse the longest hex-digit run; `none` models `NaN` (no digits). -/
def parseIntHex (s : String) : Option ℤ :=
  let l := s.data.dropWhile isJsWhitespace
  let sl := stripSign l
  let digits := leadingHexDigits (strip0x sl.2)
  if digits.isEmpty then none
  else some (sl.1 * digits.foldl (fun (acc : ℤ) (d : ℕ) => 16 * acc + (d : ℤ)) 0)

/-- Model of JS `(n >> k) & 0xff` for `k ≤ 24`, including the `ToInt32`
conversion JS bitwise operators apply (arithmetic and logical shifts agree on
bits below 32, which is all `& 0xff` keeps for these `k`). -/
def byteAt (n : ℤ) (k : ℕ) : ℕ :=
  (n % (2 ^ 32 : ℤ)).toNat / 2 ^ k % 256

/-- `parseHexToRgb` from `code.ts`. -/
def parseHexToRgb (hex : String) : Option RGB :=
  let s := jsTrim (stripHash hex)
  if s.data.length ≠ 6 then none
  else
    match parseIntHex s with
    | none => none
    | some n =>
      some ⟨(byteAt n 16 : ℚ) / 255, (byteAt n 8 : ℚ) / 255, (byteAt n 0 : ℚ) / 255⟩

/-- `Math.max(0, Math.min(1, x))`, written with decidable comparisons. -/
def clamp01 (x : ℚ) : ℚ :=
  if x < 0 then 0 else if 1 < x then 1 else x

/-- The `to255` helper inside `rgbToHexStr`:
`Math.round(Math.max(0, Math.min(1, x)) * 255)`. -/
def to255 (x : ℚ) : ℕ :=
  (round (clamp01 x * 255)).toNat

/-- Lowercase hex digit character, as produced by JS `Number.toString(16)`. -/
def hexDigitChar (n : ℕ) : Char :=
  if n < 10 then Char.ofNat (48 + n) else Char.ofNat (87 + n)

/-- Model of `n.toString(16).padStart(2, "0")` for `n ≤ 255`. -/
def hexByte (n : ℕ) : List Char :=
  [hexDigitChar (n / 16), hexDigitChar (n % 16)]

/-- `rgbToHexStr` from `code.ts`: RGB in `[0,1]` to a 6-char lowercase hex
string (no `#`). -/
def rgbToHexStr (r g b : ℚ) : String :=
  ⟨hexByte (to255 r) ++ hexByte (to255 g) ++ hexByte (to255 b)⟩

/-- `clamp01` agrees with the `max`/`min` form used by the source. -/
theorem clamp01_eq_max_min (x : ℚ) : clamp01 x = max 0 (min 1 x) := by
  rw [clamp01]
  rcases lt_trichotomy x 0 with h | h | h
  · rw [if_pos h, max_eq_left]
    have : min 1 x = x := min_eq_right (by linarith)
    rw [this]; linarith
  · subst h; norm_num
  · rw [if_neg (by linarith)]
    by_cases h1 : 1 < x
    · rw [if_pos h1, min_eq_left (le_of_lt h1), max_eq_right zero_le_one]
    · rw [if_neg h1, min_eq_right (not_lt.mp h1), max_eq_right (le_of_lt h)]

/-- The sixteen lowercase hex digit characters (`0`–`9` then `a`–`f`),
generated from the digit-to-character map. -/
def lowerHexChars : List Char :=
  (List.range 16).map hexDigitChar

/-- A character is a lowercase hex digit. -/
def isLowerHexDigit (c : Char) : Bool :=
  decide (c ∈ lowerHexChars)

/-- A character is a hex digit as accepted by `parseInt(_, 16)`. -/
def isHexDigit (c : Char) : Bool :=
  (hexDigitVal c).isSome

/-- Exhaustive facts about lowercase hex digit characters. -/
theorem lowerHex_facts : ∀ c ∈ lowerHexChars,
    isJsWhitespace c = false ∧ c ≠ '#' ∧ c ≠ '-' ∧ c ≠ '+' ∧ c ≠ 'x' ∧ c ≠ 'X' ∧
      (hexDigitVal c).isSome = true ∧ (hexDigitVal c).getD 0 < 16 ∧
      hexDigitChar ((hexDigitVal c).getD 0) = c := by
  decide

theorem dropWhile_eq_self_of_all {p : Char → Bool} {l : List Char}
    (h : ∀ c ∈ l, p c = false) : l.dropWhile p = l := by
  cases l with
  | nil => rfl
  | cons a as =>
    rw [List.dropWhile_cons, if_neg]
    simp [h a (by simp)]

theorem jsTrim_eq_self {s : String}
    (h : ∀ c ∈ s.data, isJsWhitespace c = false) : jsTrim s = s := by
  rw [jsTrim, dropWhile_eq_self_of_all h, dropWhile_eq_self_of_all]
  · simp
  · intro c hc
    exact h c (by simpa using hc)

theorem stripHash_eq_self {s : String} (h : s.data.head? ≠ some '#') :
    stripHash s = s := by
  rw [stripHash, if_neg h]

/-- On an all-hex-digit list, `leadingHexDigits` consumes everything. -/
theorem leadingHexDigits_all {l : List Char}
    (h : ∀ c ∈ l, (hexDigitVal c).isSome = true) :
    leadingHexDigits l = l.map (fun c => (hexDigitVal c).getD 0) := by
  induction l with
  | nil => rfl
  | cons a as ih =>
    obtain ⟨d, hd⟩ := Option.isSome_iff_exists.mp (h a (by simp))
    rw [leadingHexDigits, hd, List.map_cons]
    rw [ih fun c hc => h c (by simp [hc])]
    simp [hd]

/-- Folding hex digits over `ℤ` agrees with folding over `ℕ`. -/
theorem foldl_hex_cast (ds : List ℕ) (acc : ℕ) :
    ds.foldl (fun (a : ℤ) (d : ℕ) => 16 * a + (d : ℤ)) (acc : ℤ) =
      ((ds.foldl (fun a d => 16 * a + d) acc : ℕ) : ℤ) := by
  induction ds generalizing acc with
  | nil => rfl
  | cons d ds ih =>
    rw [List.foldl_cons, List.foldl_cons, show (16 * (acc : ℤ) + d) = ((16 * acc + d : ℕ) : ℤ) by push_cast; ring]
    exact ih _

/-- `byteAt` on a small nonnegative value is plain base-2 digit extraction. -/
theorem byteAt_ofNat (m : ℕ) (k : ℕ) (hm : m < 2 ^ 32) :
    byteAt (m : ℤ) k = m / 2 ^ k % 256 := by
  rw [byteAt, Int.emod_eq_of_lt (by positivity) (by exact_mod_cast hm)]
  simp

theorem to255_byte (b : ℕ) (hb : b ≤ 255) : to255 ((b : ℚ) / 255) = b := by
  rw [to255, clamp01, if_neg (not_lt.mpr (by positivity)), if_neg, div_mul_cancel₀ _ (by norm_num : (255 : ℚ) ≠ 0), round_natCast]
  · simp
  · rw [not_lt, div_le_one (by norm_num)]
    exact_mod_cast hb

/-- C7 (amended): the HEX→RGB→HEX round-trip holds for every 6-character
string of lowercase hex digits.  (The claim as stated, over all well-formed
6-digit hex strings, fails for uppercase digits: see
`parseHex_roundtrip_uppercase_ce`.) -/
theorem parseHex_rgbToHexStr_roundtrip (s : String)
    (hlen : s.data.length = 6)
    (hhex : ∀ c ∈ s.data, isLowerHexDigit c = true) :
    ∃ rgb : RGB, parseHexToRgb s = some rgb ∧
      rgbToHexStr rgb.r rgb.g rgb.b = s := by
  obtain ⟨data⟩ := s
  simp only [String.data] at hlen hhex ⊢
  obtain ⟨c0, c1, c2, c3, c4, c5, hd⟩ :
      ∃ c0 c1 c2 c3 c4 c5, data = [c0, c1, c2, c3, c4, c5] := by
    rcases data with _ | ⟨a0, _ | ⟨a1, _ | ⟨a2, _ | ⟨a3, _ | ⟨a4, _ | ⟨a5, rest⟩⟩⟩⟩⟩⟩ <;>
      simp at hlen
    subst hlen
    exact ⟨a0, a1, a2, a3, a4, a5, rfl⟩
  subst hd
  have fact : ∀ c ∈ ([c0, c1, c2, c3, c4, c5] : List Char),
      isJsWhitespace c = false ∧ c ≠ '#' ∧ c ≠ '-' ∧ c ≠ '+' ∧ c ≠ 'x' ∧ c ≠ 'X' ∧
        (hexDigitVal c).isSome = true ∧ (hexDigitVal c).getD 0 < 16 ∧
        hexDigitChar ((hexDigitVal c).getD 0) = c := by
    intro c hc
    exact lowerHex_facts c (of_decide_eq_true (hhex c hc))
  obtain ⟨f0, f1, f2, f3, f4, f5⟩ :
      _ ∧ _ ∧ _ ∧ _ ∧ _ ∧ _ :=
    ⟨fact c0 (by simp), fact c1 (by simp), fact c2 (by simp),
     fact c3 (by simp), fact c4 (by simp), fact c5 (by simp)⟩
  set v0 := (hexDigitVal c0).getD 0 with hv0
  set v1 := (hexDigitVal c1).getD 0 with hv1
  set v2 := (hexDigitVal c2).getD 0 with hv2
  set v3 := (hexDigitVal c3).getD 0 with hv3
  set v4 := (hexDigitVal c4).getD 0 with hv4
  set v5 := (hexDigitVal c5).getD 0 with hv5
  -- the trimmed, hash-stripped string is the string itself
  have hs : jsTrim (stripHash ⟨[c0, c1, c2, c3, c4, c5]⟩) = ⟨[c0, c1, c2, c3, c4, c5]⟩ := by
    rw [stripHash_eq_self (by simpa using f0.2.1), jsTrim_eq_self]
    intro c hc
    exact (fact c hc).1
  have hsign : stripSign [c0, c1, c2, c3, c4, c5] = (1, [c0, c1, c2, c3, c4, c5]) := by
    simp only [stripSign, List.head?_cons, List.tail_cons]
    rw [if_neg (by simpa using f0.2.2.1), if_neg (by simpa using f0.2.2.2.1)]
  have h0x : strip0x [c0, c1, c2, c3, c4, c5] = [c0, c1, c2, c3, c4, c5] := by
    simp only [strip0x, List.head?_cons, List.tail_cons]
    rw [if_neg]
    rintro ⟨-, h | h⟩
    · exact f1.2.2.2.2.1 (by simpa using h)
    · exact f1.2.2.2.2.2.1 (by simpa using h)
  -- the parsed integer value
  have hfold :
      parseIntHex ⟨[c0, c1, c2, c3, c4, c5]⟩ =
        some ((16 * (16 * (16 * (16 * (16 * v0 + v1) + v2) + v3) + v4) + v5 : ℕ) : ℤ) := by
    simp only [parseIntHex, String.data]
    rw [dropWhile_eq_self_of_all (fun c hc => (fact c hc).1), hsign]
    simp only
    rw [h0x, leadingHexDigits_all (fun c hc => (fact c hc).2.2.2.2.2.2.1)]
    simp only [List.map_cons, List.map_nil, List.isEmpty_cons, List.foldl_cons, List.foldl_nil]
    rw [if_neg Bool.false_ne_true, one_mul]
    simp only [← hv0, ← hv1, ← hv2, ← hv3, ← hv4, ← hv5]
    congr 1
    push_cast
    ring
  set M : ℕ := 16 * (16 * (16 * (16 * (16 * v0 + v1) + v2) + v3) + v4) + v5 with hM
  have hb0 : v0 < 16 := f0.2.2.2.2.2.2.2.1
  have hb1 : v1 < 16 := f1.2.2.2.2.2.2.2.1
  have hb2 : v2 < 16 := f2.2.2.2.2.2.2.2.1
  have hb3 : v3 < 16 := f3.2.2.2.2.2.2.2.1
  have hb4 : v4 < 16 := f4.2.2.2.2.2.2.2.1
  have hb5 : v5 < 16 := f5.2.2.2.2.2.2.2.1
  have hMlt : M < 2 ^ 32 := by rw [hM]; omega
  have hby16 : byteAt (M : ℤ) 16 = 16 * v0 + v1 := by
    rw [byteAt_ofNat M 16 hMlt, hM]; omega
  have hby8 : byteAt (M : ℤ) 8 = 16 * v2 + v3 := by
    rw [byteAt_ofNat M 8 hMlt, hM]; omega
  have hby0 : byteAt (M : ℤ) 0 = 16 * v4 + v5 := by
    rw [byteAt_ofNat M 0 hMlt, hM]; omega
  refine ⟨⟨((16 * v0 + v1 : ℕ) : ℚ) / 255, ((16 * v2 + v3 : ℕ) : ℚ) / 255,
    ((16 * v4 + v5 : ℕ) : ℚ) / 255⟩, ?_, ?_⟩
  · rw [parseHexToRgb]
    simp only [hs, hfold]
    rw [if_neg (by simp)]
    rw [hby16, hby8, hby0]
  · rw [rgbToHexStr]
    rw [to255_byte _ (by omega), to255_byte _ (by omega), to255_byte _ (by omega)]
    rw [hexByte, hexByte, hexByte]
    rw [show (16 * v0 + v1) / 16 = v0 by omega, show (16 * v0 + v1) % 16 = v1 by omega,
      show (16 * v2 + v3) / 16 = v2 by omega, show (16 * v2 + v3) % 16 = v3 by omega,
      show (16 * v4 + v5) / 16 = v4 by omega, show (16 * v4 + v5) % 16 = v5 by omega]
    rw [f0.2.2.2.2.2.2.2.2, f1.2.2.2.2.2.2.2.2, f2.2.2.2.2.2.2.2.2,
      f3.2.2.2.2.2.2.2.2, f4.2.2.2.2.2.2.2.2, f5.2.2.2.2.2.2.2.2]
    rfl

/-- Evaluation helper for `parseHexToRgb` at concrete strings. -/
theorem parseHexToRgb_eval (s : String) (n : ℤ)
    (h6 : (jsTrim (stripHash s)).data.length = 6)
    (hn : parseIntHex (jsTrim (stripHash s)) = some n) :
    parseHexToRgb s =
      some ⟨(byteAt n 16 : ℚ) / 255, (byteAt n 8 : ℚ) / 255, (byteAt n 0 : ℚ) / 255⟩ := by
  simp only [parseHexToRgb]
  rw [if_neg (by simp [h6]), hn]

theorem to255_zero : to255 0 = 0 := by
  rw [show (0 : ℚ) = ((0 : ℕ) : ℚ) / 255 by norm_num]
  exact to255_byte 0 (by norm_num)

theorem to255_one : to255 1 = 255 := by
  rw [show (1 : ℚ) = ((255 : ℕ) : ℚ) / 255 by norm_num]
  exact to255_byte 255 (by norm_num)

theorem rgbToHexStr_000 : rgbToHexStr 0 0 0 = "000000" := by
  rw [rgbToHexStr, to255_zero]
  decide

theorem rgbToHexStr_100 : rgbToHexStr 1 0 0 = "ff0000" := by
  rw [rgbToHexStr, to255_zero, to255_one]
  decide

/-- C7 (witness): the round-trip theorem applied to the concrete lowercase
string `"0a1b2c"`. -/
theorem parseHex_rgbToHexStr_roundtrip_witness :
    ("0a1b2c" : String).data.length = 6 ∧
      (∀ c ∈ ("0a1b2c" : String).data, isLowerHexDigit c = true) ∧
      ∃ rgb : RGB, parseHexToRgb "0a1b2c" = some rgb ∧
        rgbToHexStr rgb.r rgb.g rgb.b = "0a1b2c" :=
  ⟨by decide, by decide,
    parseHex_rgbToHexStr_roundtrip "0a1b2c" (by decide) (by decide)⟩

/-- C7 (counterexample): `"FF0000"` is a well-formed 6-digit hex string (all
characters are hex digits), but the round-trip lowercases it:
`rgbToHex(parseHex("FF0000")) = "ff0000" ≠ "FF0000"`. -/
theorem parseHex_roundtrip_uppercase_ce :
    ("FF0000" : String).data.length = 6 ∧
      (∀ c ∈ ("FF0000" : String).data, isHexDigit c = true) ∧
      parseHexToRgb "FF0000" = some ⟨1, 0, 0⟩ ∧
      rgbToHexStr 1 0 0 = "ff0000" ∧ ("ff0000" : String) ≠ "FF0000" := by
  refine ⟨by decide, by decide, ?_, rgbToHexStr_100, by decide⟩
  rw [parseHexToRgb_eval "FF0000" 16711680 (by decide) (by decide)]
  rw [show byteAt 16711680 16 = 255 from by decide,
    show byteAt 16711680 8 = 0 from by decide,
    show byteAt 16711680 0 = 0 from by decide]
  norm_num

/-- C8 (counterexample): `"ff00zz"` is not a 6-hex-digit string (`'z'` is not
a hex digit), yet `parseHexToRgb` does not return `none`: JS `parseInt`
parses the `"ff00"` prefix, yielding the color `(0, 1, 0)`. -/
theorem parseHexToRgb_junk_suffix_ce :
    ('z' ∈ ("ff00zz" : String).data ∧ isHexDigit 'z' = false) ∧
      parseHexToRgb "ff00zz" = some ⟨0, 1, 0⟩ := by
  refine ⟨by decide, ?_⟩
  rw [parseHexToRgb_eval "ff00zz" 65280 (by decide) (by decide)]
  rw [show byteAt 65280 16 = 0 from by decide,
    show byteAt 65280 8 = 255 from by decide,
    show byteAt 65280 0 = 0 from by decide]
  norm_num

/-- Squared Euclidean RGB distance (exact rational). -/
def distSq (a b : RGB) : ℚ :=
  (a.r - b.r) ^ 2 + (a.g - b.g) ^ 2 + (a.b - b.b) ^ 2

/-- `colorDistance` from `code.ts`: `Math.sqrt(Δr² + Δg² + Δb²)`, as a real
number.  The executable sort below compares distances through decidable
rational tests that are proved equivalent to comparisons of this quantity. -/
noncomputable def colorDistance (a b : RGB) : ℝ :=
  Real.sqrt ((distSq a b : ℚ) : ℝ)

/-- The comparator's tie threshold `1e-6`. -/
def tieEps : ℚ := 1 / 1000000

/-- Decides `√x < √y + e` (for `0 ≤ x`, `0 ≤ y`, `0 < e`) by rational
arithmetic; see `sqrtLtAddB_iff`. -/
def sqrtLtAddB (x y e : ℚ) : Bool :=
  decide (x - y - e ^ 2 < 0) || decide ((x - y - e ^ 2) ^ 2 < 4 * e ^ 2 * y)

/-- Decides `|√x - √y| < 1e-6`, the comparator's tie test; see `tieB_iff`. -/
def tieB (x y : ℚ) : Bool :=
  sqrtLtAddB x y tieEps && sqrtLtAddB y x tieEps

/-- An entry of `getCollectionVariableList`'s result. -/
structure VarListEntry where
  variableId : String
  variableName : String
  r : ℚ
  g : ℚ
  b : ℚ
deriving DecidableEq

/-- An element of the `withDistance` array built by `computeCandidates`:
the entry plus its hex rendering and its distance to the target (carried as
the exact squared distance `d2`; the JS `distance` field is `√d2`). -/
structure CandWithDistance where
  variableId : String
  variableName : String
  hex : String
  d2 : ℚ
deriving DecidableEq

/-- An element of `computeCandidates`' output. -/
structure CandOut where
  variableId : String
  variableName : String
  hex : String
deriving DecidableEq

/-- The sort comparator of `computeCandidates`, as the test "the comparator
returns a negative number on `(a, b)`", i.e. `a` must come strictly before
`b`:  if `|dist a - dist b| < 1e-6` the comparator returns
`localeCompare(name a, name b)` (modelled as code-point order), else
`dist a - dist b`. -/
def candLt (a b : CandWithDistance) : Bool :=
  if tieB a.d2 b.d2 then decide (a.variableName < b.variableName)
  else decide (a.d2 < b.d2)

/-- Stable insertion used to model `Array.prototype.sort`: insert `x` after
every element strictly before it. -/
def insertOrd (lt : α → α → Bool) (x : α) : List α → List α
  | [] => [x]
  | y :: ys => if lt y x then y :: insertOrd lt x ys else x :: y :: ys

/-- Model of JS `Array.prototype.sort` with comparator-induced strict order
`lt`: a stable comparison sort (ECMAScript requires the result to be stable
and sorted whenever the comparator is consistent; for an inconsistent
comparator the result is implementation-defined, and this model fixes one). -/
def isortJs (lt : α → α → Bool) : List α → List α
  | [] => []
  | x :: xs => insertOrd lt x (isortJs lt xs)

/-- The `withDistance` array of `computeCandidates` (`code.ts` lines
187–191). -/
def withDistanceList (list : List VarListEntry) (targetRgb : RGB) :
    List CandWithDistance :=
  list.map fun v =>
    ⟨v.variableId, v.variableName, rgbToHexStr v.r v.g v.b,
      distSq ⟨v.r, v.g, v.b⟩ targetRgb⟩

/-- The sorted-and-truncated intermediate list of `computeCandidates`. -/
def rankPipeline (list : List VarListEntry) (targetRgb : RGB) (limit : ℕ) :
    List CandWithDistance :=
  (isortJs candLt (withDistanceList list targetRgb)).take limit

/-- `computeCandidates` from `code.ts`: rank by distance, truncate to
`limit`, project to `(variableId, variableName, hex)`. -/
def computeCandidates (list : List VarListEntry) (targetRgb : RGB)
    (limit : ℕ) : List CandOut :=
  (rankPipeline list targetRgb limit).map fun c =>
    ⟨c.variableId, c.variableName, c.hex⟩

/-- The ordering property claimed by the spec for the ranked list: for any
element `x` placed before `y`, if their (real, square-root) distances are
within `1e-6` of each other then the names are in ascending order, and
otherwise the distances are in ascending order. -/
def specRankedOrder (l : List CandWithDistance) : Prop :=
  l.Pairwise fun x y =>
    (|Real.sqrt (x.d2 : ℝ) - Real.sqrt (y.d2 : ℝ)| < 1 / 1000000 →
      x.variableName ≤ y.variableName) ∧
    ((1 / 1000000 : ℝ) ≤ |Real.sqrt (x.d2 : ℝ) - Real.sqrt (y.d2 : ℝ)| →
      Real.sqrt (x.d2 : ℝ) ≤ Real.sqrt (y.d2 : ℝ))

theorem tieB_comm (x y : ℚ) : tieB x y = tieB y x := by
  rw [tieB, tieB, Bool.and_comm]

/-- The rational test `sqrtLtAddB` decides the real inequality
`√x < √y + e`. -/
theorem sqrtLtAddB_iff (x y e : ℚ) (hy : 0 ≤ y) (he : 0 < e) :
    sqrtLtAddB x y e = true ↔
      Real.sqrt (x : ℝ) < Real.sqrt (y : ℝ) + (e : ℝ) := by
  have hyR : (0 : ℝ) ≤ (y : ℝ) := by exact_mod_cast hy
  have heR : (0 : ℝ) < (e : ℝ) := by exact_mod_cast he
  have hsy : Real.sqrt (y : ℝ) ^ 2 = (y : ℝ) := Real.sq_sqrt hyR
  have hsy0 : (0 : ℝ) ≤ Real.sqrt (y : ℝ) := Real.sqrt_nonneg _
  have hpos : (0 : ℝ) < Real.sqrt (y : ℝ) + (e : ℝ) := by linarith
  rw [sqrtLtAddB, Bool.or_eq_true, decide_eq_true_eq, decide_eq_true_eq,
    Real.sqrt_lt' hpos]
  constructor
  · rintro (h | h)
    · have hR : (x : ℝ) - y - e ^ 2 < 0 := by exact_mod_cast h
      nlinarith [mul_nonneg heR.le hsy0]
    · have hR : ((x : ℝ) - y - e ^ 2) ^ 2 < 4 * (e : ℝ) ^ 2 * y := by
        exact_mod_cast h
      nlinarith [mul_nonneg heR.le hsy0]
  · intro h
    by_cases ht : (x - y - e ^ 2 : ℚ) < 0
    · exact Or.inl ht
    · right
      have htR : (0 : ℝ) ≤ (x : ℝ) - y - e ^ 2 := by
        exact_mod_cast not_lt.mp ht
      have hgoal : ((x : ℝ) - y - e ^ 2) ^ 2 < 4 * (e : ℝ) ^ 2 * y := by
        nlinarith [mul_nonneg heR.le hsy0]
      exact_mod_cast hgoal

/-- The rational test `tieB` decides the comparator's tie condition
`|√x - √y| < 1e-6`. -/
theorem tieB_iff (x y : ℚ) (hx : 0 ≤ x) (hy : 0 ≤ y) :
    tieB x y = true ↔
      |Real.sqrt (x : ℝ) - Real.sqrt (y : ℝ)| < 1 / 1000000 := by
  rw [tieB, Bool.and_eq_true, sqrtLtAddB_iff x y tieEps hy (by norm_num [tieEps]),
    sqrtLtAddB_iff y x tieEps hx (by norm_num [tieEps]), abs_sub_lt_iff,
    show ((tieEps : ℚ) : ℝ) = 1 / 1000000 by norm_num [tieEps]]
  constructor
  · rintro ⟨h1, h2⟩
    exact ⟨by linarith, by linarith⟩
  · rintro ⟨h1, h2⟩
    exact ⟨by linarith, by linarith⟩

theorem candLt_asymm (a b : CandWithDistance) :
    candLt a b = true → candLt b a = false := by
  rw [candLt, candLt, tieB_comm b.d2 a.d2]
  by_cases h : tieB a.d2 b.d2 = true
  · rw [if_pos h, if_pos h, decide_eq_true_eq, decide_eq_false_iff_not]
    exact fun hlt => lt_asymm hlt
  · rw [if_neg h, if_neg h, decide_eq_true_eq, decide_eq_false_iff_not]
    exact fun hlt => lt_asymm hlt

/-- Negative transitivity of the comparator order, given tie-transitivity on
the three distances involved.  This is what makes the comparator a strict
weak order on such inputs. -/
theorem candLt_neg_trans (a b c : CandWithDistance)
    (ha : 0 ≤ a.d2) (hb : 0 ≤ b.d2) (hc : 0 ≤ c.d2)
    (hT1 : tieB a.d2 b.d2 = true → tieB b.d2 c.d2 = true → tieB a.d2 c.d2 = true)
    (hT2 : tieB c.d2 a.d2 = true → tieB a.d2 b.d2 = true → tieB c.d2 b.d2 = true)
    (hT3 : tieB b.d2 c.d2 = true → tieB c.d2 a.d2 = true → tieB b.d2 a.d2 = true)
    (h1 : candLt b a = false) (h2 : candLt c b = false) :
    candLt c a = false := by
  have heps : (0 : ℝ) < 1 / 1000000 := by norm_num
  by_cases tBA : tieB b.d2 a.d2 = true
  · rw [candLt, if_pos tBA, decide_eq_false_iff_not] at h1
    have hnab : a.variableName ≤ b.variableName := not_lt.mp h1
    have tAB : tieB a.d2 b.d2 = true := by rw [tieB_comm]; exact tBA
    have hdab : |Real.sqrt (a.d2 : ℝ) - Real.sqrt (b.d2 : ℝ)| < 1 / 1000000 :=
      (tieB_iff _ _ ha hb).mp tAB
    by_cases tCB : tieB c.d2 b.d2 = true
    · rw [candLt, if_pos tCB, decide_eq_false_iff_not] at h2
      have hnbc : b.variableName ≤ c.variableName := not_lt.mp h2
      by_cases tCA : tieB c.d2 a.d2 = true
      · rw [candLt, if_pos tCA, decide_eq_false_iff_not]
        exact not_lt.mpr (le_trans hnab hnbc)
      · -- ties (a,b) and (b,c) but not (a,c): contradicts tie-transitivity
        have tBC : tieB b.d2 c.d2 = true := by rw [tieB_comm]; exact tCB
        have tAC := hT1 tAB tBC
        have tCA' : tieB c.d2 a.d2 = true := by rw [tieB_comm]; exact tAC
        exact absurd tCA' tCA
    · rw [candLt, if_neg tCB, decide_eq_false_iff_not] at h2
      have hdbc : b.d2 ≤ c.d2 := not_lt.mp h2
      have hsbc : Real.sqrt (b.d2 : ℝ) ≤ Real.sqrt (c.d2 : ℝ) :=
        Real.sqrt_le_sqrt (by exact_mod_cast hdbc)
      have hgapcb : (1 : ℝ) / 1000000 ≤ |Real.sqrt (c.d2 : ℝ) - Real.sqrt (b.d2 : ℝ)| := by
        by_contra hcon
        exact tCB ((tieB_iff _ _ hc hb).mpr (not_le.mp hcon))
      by_cases tCA : tieB c.d2 a.d2 = true
      · -- tie (c,a) and tie (a,b) would force tie (c,b): contradiction
        exact absurd (hT2 tCA tAB) tCB
      · rw [candLt, if_neg tCA, decide_eq_false_iff_not]
        intro hlt
        have hsca : Real.sqrt (c.d2 : ℝ) < Real.sqrt (a.d2 : ℝ) :=
          (Real.sqrt_lt_sqrt_iff (by exact_mod_cast hc)).mpr (by exact_mod_cast hlt)
        rw [abs_sub_lt_iff] at hdab
        rw [le_abs] at hgapcb
        rcases hgapcb with hg | hg
        · linarith
        · linarith
  · rw [candLt, if_neg tBA, decide_eq_false_iff_not] at h1
    have hdba : a.d2 ≤ b.d2 := not_lt.mp h1
    have hsab : Real.sqrt (a.d2 : ℝ) ≤ Real.sqrt (b.d2 : ℝ) :=
      Real.sqrt_le_sqrt (by exact_mod_cast hdba)
    have hgapba : (1 : ℝ) / 1000000 ≤ |Real.sqrt (b.d2 : ℝ) - Real.sqrt (a.d2 : ℝ)| := by
      by_contra hcon
      exact tBA ((tieB_iff _ _ hb ha).mpr (not_le.mp hcon))
    by_cases tCB : tieB c.d2 b.d2 = true
    · have hdcb : |Real.sqrt (c.d2 : ℝ) - Real.sqrt (b.d2 : ℝ)| < 1 / 1000000 :=
        (tieB_iff _ _ hc hb).mp tCB
      by_cases tCA : tieB c.d2 a.d2 = true
      · -- tie (b,c) and tie (c,a) would force tie (b,a): contradiction
        have tBC : tieB b.d2 c.d2 = true := by rw [tieB_comm]; exact tCB
        exact absurd (hT3 tBC tCA) tBA
      · rw [candLt, if_neg tCA, decide_eq_false_iff_not]
        intro hlt
        have hsca : Real.sqrt (c.d2 : ℝ) < Real.sqrt (a.d2 : ℝ) :=
          (Real.sqrt_lt_sqrt_iff (by exact_mod_cast hc)).mpr (by exact_mod_cast hlt)
        rw [abs_sub_lt_iff] at hdcb
        rw [le_abs] at hgapba
        rcases hgapba with hg | hg
        · linarith
        · linarith
    · rw [candLt, if_neg tCB, decide_eq_false_iff_not] at h2
      have hdbc : b.d2 ≤ c.d2 := not_lt.mp h2
      by_cases tCA : tieB c.d2 a.d2 = true
      · rw [candLt, if_pos tCA, decide_eq_false_iff_not]
        -- distances a ≤ b ≤ c with two ε-gaps, but (c,a) is a tie: impossible
        have hsbc : Real.sqrt (b.d2 : ℝ) ≤ Real.sqrt (c.d2 : ℝ) :=
          Real.sqrt_le_sqrt (by exact_mod_cast hdbc)
        have hgapcb : (1 : ℝ) / 1000000 ≤ |Real.sqrt (c.d2 : ℝ) - Real.sqrt (b.d2 : ℝ)| := by
          by_contra hcon
          exact tCB ((tieB_iff _ _ hc hb).mpr (not_le.mp hcon))
        have hdca : |Real.sqrt (c.d2 : ℝ) - Real.sqrt (a.d2 : ℝ)| < 1 / 1000000 :=
          (tieB_iff _ _ hc ha).mp tCA
        rw [abs_sub_lt_iff] at hdca
        rw [le_abs] at hgapba hgapcb
        exfalso
        rcases hgapba with hg1 | hg1 <;> rcases hgapcb with hg2 | hg2 <;> linarith
      · rw [candLt, if_neg tCA, decide_eq_false_iff_not]
        exact not_lt.mpr (le_trans hdba hdbc)

theorem mem_insertOrd {lt : α → α → Bool} {x a : α} {l : List α} :
    a ∈ insertOrd lt x l ↔ a = x ∨ a ∈ l := by
  induction l with
  | nil => simp [insertOrd]
  | cons y ys ih =>
    rw [insertOrd]
    by_cases h : lt y x = true
    · rw [if_pos h]
      simp only [List.mem_cons, ih]
      tauto
    · rw [if_neg h]
      simp only [List.mem_cons]

theorem insertOrd_perm (lt : α → α → Bool) (x : α) (l : List α) :
    (insertOrd lt x l).Perm (x :: l) := by
  induction l with
  | nil => exact List.Perm.refl _
  | cons y ys ih =>
    rw [insertOrd]
    by_cases h : lt y x = true
    · rw [if_pos h]
      exact (ih.cons y).trans (List.Perm.swap x y ys)
    · rw [if_neg h]

theorem isortJs_perm (lt : α → α → Bool) (l : List α) :
    (isortJs lt l).Perm l := by
  induction l with
  | nil => exact List.Perm.refl _
  | cons x xs ih =>
    rw [isortJs]
    exact (insertOrd_perm lt x (isortJs lt xs)).trans (ih.cons x)

theorem insertOrd_pairwise {lt : α → α → Bool}
    (hasym : ∀ a b, lt a b = true → lt b a = false) {x : α} {l : List α}
    (htrans : ∀ a ∈ x :: l, ∀ b ∈ x :: l, ∀ c ∈ x :: l,
      lt b a = false → lt c b = false → lt c a = false)
    (hl : l.Pairwise fun a b => lt b a = false) :
    (insertOrd lt x l).Pairwise fun a b => lt b a = false := by
  induction l with
  | nil => simp [insertOrd]
  | cons y ys ih =>
    rw [List.pairwise_cons] at hl
    obtain ⟨hy, hys⟩ := hl
    rw [insertOrd]
    by_cases h : lt y x = true
    · rw [if_pos h, List.pairwise_cons]
      constructor
      · intro b hb
        rcases mem_insertOrd.mp hb with rfl | hb'
        · exact hasym y b h
        · exact hy b hb'
      · refine ih ?_ hys
        intro a ha b hb c hc
        have move : ∀ d, d ∈ x :: ys → d ∈ x :: y :: ys := by
          intro d hd
          rcases List.mem_cons.mp hd with rfl | hd'
          · exact List.mem_cons_self _ _
          · exact List.mem_cons_of_mem _ (List.mem_cons_of_mem _ hd')
        exact htrans a (move a ha) b (move b hb) c (move c hc)
    · rw [if_neg h, List.pairwise_cons]
      have hyx : lt y x = false := by
        rw [← Bool.not_eq_true]
        exact h
      constructor
      · intro b hb
        rcases List.mem_cons.mp hb with rfl | hb'
        · exact hyx
        · exact htrans x (List.mem_cons_self _ _)
            y (List.mem_cons_of_mem _ (List.mem_cons_self _ _))
            b (List.mem_cons_of_mem _ (List.mem_cons_of_mem _ hb'))
            hyx (hy b hb')
      · exact List.pairwise_cons.mpr ⟨hy, hys⟩

theorem isortJs_pairwise {lt : α → α → Bool}
    (hasym : ∀ a b, lt a b = true → lt b a = false) {l : List α}
    (htrans : ∀ a ∈ l, ∀ b ∈ l, ∀ c ∈ l,
      lt b a = false → lt c b = false → lt c a = false) :
    (isortJs lt l).Pairwise fun a b => lt b a = false := by
  induction l with
  | nil => simp [isortJs]
  | cons x xs ih =>
    rw [isortJs]
    have hsub : ∀ d, d ∈ x :: isortJs lt xs → d ∈ x :: xs := by
      intro d hd
      rcases List.mem_cons.mp hd with rfl | hd'
      · exact List.mem_cons_self _ _
      · exact List.mem_cons_of_mem _ ((isortJs_perm lt xs).mem_iff.mp hd')
    refine insertOrd_pairwise hasym ?_ ?_
    · intro a ha b hb c hc
      exact htrans a (hsub a ha) b (hsub b hb) c (hsub c hc)
    · refine ih ?_
      intro a ha b hb c hc
      exact htrans a (List.mem_cons_of_mem _ ha) b (List.mem_cons_of_mem _ hb)
        c (List.mem_cons_of_mem _ hc)

theorem withDistanceList_d2_nonneg {list : List VarListEntry} {targetRgb : RGB} :
    ∀ c ∈ withDistanceList list targetRgb, 0 ≤ c.d2 := by
  intro c hc
  rw [withDistanceList, List.mem_map] at hc
  obtain ⟨v, -, rfl⟩ := hc
  rw [distSq]
  positivity

theorem pairwise_candLt_specRanked {l : List CandWithDistance}
    (hnn : ∀ c ∈ l, 0 ≤ c.d2)
    (h : l.Pairwise fun a b => candLt b a = false) :
    specRankedOrder l := by
  rw [specRankedOrder]
  refine h.imp_of_mem ?_
  intro a b ha hb hab
  constructor
  · intro htie
    have hT : tieB a.d2 b.d2 = true :=
      (tieB_iff _ _ (hnn a ha) (hnn b hb)).mpr htie
    have hT' : tieB b.d2 a.d2 = true := by rw [tieB_comm]; exact hT
    rw [candLt, if_pos hT', decide_eq_false_iff_not] at hab
    exact not_lt.mp hab
  · intro hgap
    have hT' : ¬ tieB b.d2 a.d2 = true := by
      intro hT
      have := (tieB_iff _ _ (hnn b hb) (hnn a ha)).mp hT
      rw [abs_sub_comm] at this
      linarith
    rw [candLt, if_neg hT', decide_eq_false_iff_not] at hab
    exact Real.sqrt_le_sqrt (by exact_mod_cast not_lt.mp hab)

/-- C6 (amended): the output length of `computeCandidates` is always
`min limit list.length`, and the output is always the projection of the
ranked list to `(id, name, hex)` — both unconditionally, so the result is a
deterministic function of the input of the stated size.  Whenever the
comparator's near-tie relation (distance difference below `1e-6`) is
additionally transitive across the candidate distances — in particular
whenever all distances are either equal or at least `1e-6` apart — the
ranked list is sorted ascending by Euclidean RGB distance (no alpha term)
with ties ordered by ascending entry name, truncated to `limit`.  Without
the tie-transitivity condition no output order can satisfy the claimed
ordering property at all: see `computeCandidates_tie_chain_ce`. -/
theorem computeCandidates_ranked (list : List VarListEntry) (targetRgb : RGB)
    (limit : ℕ) :
    (computeCandidates list targetRgb limit).length = min limit list.length ∧
      computeCandidates list targetRgb limit =
        (rankPipeline list targetRgb limit).map
          (fun c => ⟨c.variableId, c.variableName, c.hex⟩) ∧
      ((∀ x ∈ withDistanceList list targetRgb,
        ∀ y ∈ withDistanceList list targetRgb,
        ∀ z ∈ withDistanceList list targetRgb,
        tieB x.d2 y.d2 = true → tieB y.d2 z.d2 = true →
          tieB x.d2 z.d2 = true) →
        specRankedOrder (rankPipeline list targetRgb limit)) := by
  have hnn := @withDistanceList_d2_nonneg list targetRgb
  have hsortmem : ∀ d, d ∈ isortJs candLt (withDistanceList list targetRgb) →
      d ∈ withDistanceList list targetRgb := by
    intro d hd
    exact (isortJs_perm candLt _).mem_iff.mp hd
  refine ⟨?_, rfl, ?_⟩
  · rw [computeCandidates, List.length_map, rankPipeline, List.length_take,
      (isortJs_perm candLt _).length_eq, withDistanceList, List.length_map]
  · intro htie
    have hsorted :
        (isortJs candLt (withDistanceList list targetRgb)).Pairwise
          fun a b => candLt b a = false := by
      refine isortJs_pairwise (fun a b => candLt_asymm a b) ?_
      intro a ha b hb c hc h1 h2
      exact candLt_neg_trans a b c (hnn a ha) (hnn b hb) (hnn c hc)
        (htie a ha b hb c hc) (htie c hc a ha b hb) (htie b hb c hc a ha)
        h1 h2
    have htake : (rankPipeline list targetRgb limit).Pairwise
        fun a b => candLt b a = false := by
      rw [rankPipeline]
      exact hsorted.sublist (List.take_sublist _ _)
    refine pairwise_candLt_specRanked ?_ htake
    intro c hc
    refine hnn c (hsortmem c ?_)
    rw [rankPipeline] at hc
    exact List.mem_of_mem_take hc

/-- C6 (counterexample): with candidates at distances `0`, `9e-7` and
`1.8e-6` from the target and names chosen adversely ("c", "b", "a"), the
ranked output violates the claimed ordering: the pairs `(0, 9e-7)` and
`(9e-7, 1.8e-6)` are ties (difference `< 1e-6`) forcing name order, while
`(0, 1.8e-6)` is not a tie and forces ascending-distance order — no
arrangement satisfies all three, and in particular the code's does not. -/
theorem computeCandidates_tie_chain_ce :
    ¬ specRankedOrder (rankPipeline
      [⟨"id1", "c", 0, 0, 0⟩, ⟨"id2", "b", 9 / 10000000, 0, 0⟩,
        ⟨"id3", "a", 9 / 5000000, 0, 0⟩] ⟨0, 0, 0⟩ 12) := by
  have hd1 : distSq ⟨0, 0, 0⟩ ⟨0, 0, 0⟩ = 0 := by rw [distSq]; norm_num
  have hd2 : distSq ⟨9 / 10000000, 0, 0⟩ ⟨0, 0, 0⟩ = 81 / 100000000000000 := by
    rw [distSq]; norm_num
  have hd3 : distSq ⟨9 / 5000000, 0, 0⟩ ⟨0, 0, 0⟩ = 81 / 25000000000000 := by
    rw [distSq]; norm_num
  have hw : withDistanceList
      [⟨"id1", "c", 0, 0, 0⟩, ⟨"id2", "b", 9 / 10000000, 0, 0⟩,
        ⟨"id3", "a", 9 / 5000000, 0, 0⟩] ⟨0, 0, 0⟩ =
      [⟨"id1", "c", rgbToHexStr 0 0 0, 0⟩,
        ⟨"id2", "b", rgbToHexStr (9 / 10000000) 0 0, 81 / 100000000000000⟩,
        ⟨"id3", "a", rgbToHexStr (9 / 5000000) 0 0, 81 / 25000000000000⟩] := by
    rw [withDistanceList]
    simp only [List.map_cons, List.map_nil]
    rw [hd1, hd2, hd3]
  have tie_CB : tieB (81 / 25000000000000 : ℚ) (81 / 100000000000000) = true := by
    rw [tieB, sqrtLtAddB, sqrtLtAddB, tieEps]
    simp only [Bool.and_eq_true, Bool.or_eq_true, decide_eq_true_eq]
    norm_num
  have ntie_CA : tieB (81 / 25000000000000 : ℚ) 0 = false := by
    have h1 : sqrtLtAddB (81 / 25000000000000 : ℚ) 0 tieEps = false := by
      rw [sqrtLtAddB, tieEps]
      simp only [Bool.or_eq_false_iff, decide_eq_false_iff_not]
      norm_num
    rw [tieB, h1, Bool.false_and]
  have hlt_CB : candLt ⟨"id3", "a", rgbToHexStr (9 / 5000000) 0 0, 81 / 25000000000000⟩
      ⟨"id2", "b", rgbToHexStr (9 / 10000000) 0 0, 81 / 100000000000000⟩ = true := by
    rw [candLt]
    dsimp only
    rw [if_pos tie_CB, decide_eq_true_eq, String.lt_iff_toList_lt]
    decide
  have hlt_CA : candLt ⟨"id3", "a", rgbToHexStr (9 / 5000000) 0 0, 81 / 25000000000000⟩
      ⟨"id1", "c", rgbToHexStr 0 0 0, 0⟩ = false := by
    rw [candLt]
    dsimp only
    rw [if_neg (by rw [ntie_CA]; exact Bool.false_ne_true), decide_eq_false_iff_not]
    norm_num
  have hsorted : rankPipeline
      [⟨"id1", "c", 0, 0, 0⟩, ⟨"id2", "b", 9 / 10000000, 0, 0⟩,
        ⟨"id3", "a", 9 / 5000000, 0, 0⟩] ⟨0, 0, 0⟩ 12 =
      [⟨"id1", "c", rgbToHexStr 0 0 0, 0⟩,
        ⟨"id3", "a", rgbToHexStr (9 / 5000000) 0 0, 81 / 25000000000000⟩,
        ⟨"id2", "b", rgbToHexStr (9 / 10000000) 0 0, 81 / 100000000000000⟩] := by
    rw [rankPipeline, hw]
    simp only [isortJs, insertOrd, hlt_CB, hlt_CA, if_true, if_false, List.take]
  intro hspec
  rw [hsorted, specRankedOrder, List.pairwise_cons] at hspec
  have hpair := hspec.1
    ⟨"id2", "b", rgbToHexStr (9 / 10000000) 0 0, 81 / 100000000000000⟩ (by simp)
  have hsqrt2 : Real.sqrt ((81 / 100000000000000 : ℚ) : ℝ) = 9 / 10000000 := by
    rw [show ((81 / 100000000000000 : ℚ) : ℝ) = (9 / 10000000 : ℝ) ^ 2 by
      push_cast; norm_num]
    exact Real.sqrt_sq (by norm_num)
  have hname := hpair.1 (by
    dsimp only
    rw [show ((0 : ℚ) : ℝ) = 0 by norm_num, Real.sqrt_zero, hsqrt2]
    rw [zero_sub, abs_neg, abs_of_nonneg (by norm_num)]
    norm_num)
  have : ("b" : String) < "c" := by
    rw [String.lt_iff_toList_lt]; decide
  exact absurd hname (not_le.mpr this)

/-- C6 (witness): the ranking theorem applied to a concrete one-candidate
input, with the tie-transitivity hypothesis of the ordering conjunct
discharged there (it is trivial on one candidate). -/
theorem computeCandidates_ranked_witness :
    (computeCandidates [⟨"v1", "blue", 0, 0, 1⟩] ⟨1, 0, 0⟩ 12).length =
      min 12 ([(⟨"v1", "blue", 0, 0, 1⟩ : VarListEntry)].length) ∧
      specRankedOrder (rankPipeline [⟨"v1", "blue", 0, 0, 1⟩] ⟨1, 0, 0⟩ 12) := by
  have htie : ∀ x ∈ withDistanceList [⟨"v1", "blue", 0, 0, 1⟩] ⟨1, 0, 0⟩,
      ∀ y ∈ withDistanceList [⟨"v1", "blue", 0, 0, 1⟩] ⟨1, 0, 0⟩,
      ∀ z ∈ withDistanceList [⟨"v1", "blue", 0, 0, 1⟩] ⟨1, 0, 0⟩,
      tieB x.d2 y.d2 = true → tieB y.d2 z.d2 = true → tieB x.d2 z.d2 = true := by
    intro x hx y hy z hz h1 h2
    rw [withDistanceList] at hx hy hz
    simp only [List.map_cons, List.map_nil, List.mem_singleton] at hx hy hz
    subst hx
    subst hy
    subst hz
    exact h1
  obtain ⟨hl, -, hs⟩ :=
    computeCandidates_ranked [⟨"v1", "blue", 0, 0, 1⟩] ⟨1, 0, 0⟩ 12
  exact ⟨hl, hs htie⟩

/-- A mode of a variable collection. -/
structure ModeInfo where
  modeId : String
  name : String
deriving DecidableEq

/-- A value stored in a variable under one mode: either a color object
(`value && typeof value === "object" && "r" in value`) or anything else. -/
inductive VarValue where
  | colorV (r g b : ℚ) (a : Option ℚ)
  | otherV
deriving DecidableEq

/-- A variable as returned by `figma.variables.getVariableByIdAsync`;
`isColor` models `resolvedType === "COLOR"`, `valuesByMode` the JS object. -/
structure FigVariable where
  id : String
  name : String
  isColor : Bool
  valuesByMode : List (String × VarValue)
deriving DecidableEq

/-- A local variable collection. -/
structure Collection where
  name : String
  modes : List ModeInfo
  variableIds : List String
deriving DecidableEq

/-- A library variable collection (only its name matters to this code). -/
structure LibCollection where
  name : String
deriving DecidableEq

inductive CollectionSource where
  | localC (c : Collection)
  | libraryC (c : LibCollection)
deriving DecidableEq

/-- Host environment for catalog access.  `localsE` models
`getLocalVariableCollectionsAsync()` (awaited without a local try/catch, so a
rejection propagates to the caller — hence `Except`); `libs` models the
soft-failing library lookup (already reduced to a list by
`getLibraryVariableCollectionsSafe`); `getVar` models
`getVariableByIdAsync`. -/
structure CatalogEnv where
  localsE : Except String (List Collection)
  libs : List LibCollection
  getVar : String → Option FigVariable

/-- `findVariableCollectionByName` from `variableCollectionUtils.ts`:
case-insensitive name lookup, locals first, then libraries; `none` models the
`null` return (the error side-channel postMessage is not modelled). -/
def findVariableCollectionByName (env : CatalogEnv) (name : String) :
    Except String (Option CollectionSource) :=
  let nameLower := jsToLower (jsTrim name)
  if nameLower = "" then .ok none
  else
    match env.localsE with
    | .error e => .error e
    | .ok locals =>
      match locals.find? (fun c => jsToLower (jsTrim c.name) == nameLower) with
      | some c => .ok (some (.localC c))
      | none =>
        match env.libs.find? (fun c => jsToLower (jsTrim c.name) == nameLower) with
        | some c => .ok (some (.libraryC c))
        | none => .ok none

/-- The library-name merge loop of `getAvailableCollectionNames`. -/
def addLibNames (seen : List String) (acc : List String) :
    List String → List String
  | [] => acc
  | n :: rest =>
    if jsToLower (jsTrim n) ∈ seen then addLibNames seen acc rest
    else addLibNames (seen ++ [jsToLower (jsTrim n)]) (acc ++ [n]) rest

/-- `getAvailableCollectionNames` from `variableCollectionUtils.ts`: local
names first, then library names not already present (case-insensitive). -/
def getAvailableCollectionNames (env : CatalogEnv) :
    Except String (List String) :=
  match env.localsE with
  | .error e => .error e
  | .ok locals =>
    let localNames := locals.map (·.name)
    .ok (addLibNames (localNames.map fun n => jsToLower (jsTrim n)) localNames
      (env.libs.map (·.name)))

/-- A value of the exact-match `Map`: the source stores
`{ variable, name: variable.name }`. -/
structure ColorMapEntry where
  varRef : FigVariable
  name : String
deriving DecidableEq

/-- The exact-match `Map`, modelled as an association list with unique keys
(both insertion paths preserve key uniqueness, so `length` is `Map.size`). -/
abbrev KeyMap := List (ExactKey × ColorMapEntry)

def mapFind (m : KeyMap) (k : ExactKey) : Option ColorMapEntry :=
  (m.find? (fun p => p.1 == k)).map (·.2)

def mapHas (m : KeyMap) (k : ExactKey) : Bool :=
  (m.find? (fun p => p.1 == k)).isSome

/-- JS `Map.set`: overwrite in place if present, else append. -/
def mapSet (m : KeyMap) (k : ExactKey) (v : ColorMapEntry) : KeyMap :=
  if mapHas m k then m.map (fun p => if p.1 == k then (k, v) else p)
  else m ++ [(k, v)]

/-- `matchesPrefix` from `code.ts`: `variableName.trim().startsWith(p)`
(string prefix test, written over the character lists so it evaluates). -/
def matchesPfx (variableName : String) (p : String) : Bool :=
  List.isPrefixOf p.data (jsTrim variableName).data

/-- The group-filter priority list `GROUP_FILTER_PREFIXES`. -/
def GROUP_FILTER_PREFIXES : List String := ["Color/", "Black/"]

/-- The prefix order actually processed by `getCollectionColorMap`
(`code.ts` line 121): only the first two prefixes when the list has at least
two entries. -/
def filterOrder (ps : List String) : List String :=
  match ps with
  | p0 :: p1 :: _ => [p0, p1]
  | _ => ps

def resolveModeId (c : Collection) (mode : String) : Option String :=
  match c.modes.find? (fun m => jsToLower m.name == jsToLower mode) with
  | some m => some m.modeId
  | none => (c.modes[0]?).map (·.modeId)

def lookupValue (v : FigVariable) (modeId : String) : Option VarValue :=
  (v.valuesByMode.find? (fun p => p.1 == modeId)).map (·.2)

structure CollectionColorMapOptions where
  useGroupFilters : Bool
  groupPrefixes : List String
deriving DecidableEq

/-- One iteration of the unfiltered indexing loop of
`getCollectionColorMap`. -/
def colorMapStepNoFilter (env : CatalogEnv) (modeId : String) (m : KeyMap)
    (vid : String) : KeyMap :=
  match env.getVar vid with
  | none => m
  | some v =>
    if v.isColor = false then m
    else
      match lookupValue v modeId with
      | some (.colorV r g b a) =>
        mapSet m (rgbOpacityKey r g b (some (a.getD 1))) ⟨v, v.name⟩
      | _ => m

/-- One iteration of the filtered indexing loop of `getCollectionColorMap`:
insert only when the name matches the prefix and the key is not already
present. -/
def colorMapStepFiltered (env : CatalogEnv) (modeId : String) (p : String)
    (m : KeyMap) (vid : String) : KeyMap :=
  match env.getVar vid with
  | none => m
  | some v =>
    if v.isColor = false then m
    else if matchesPfx v.name p = false then m
    else
      match lookupValue v modeId with
      | some (.colorV r g b a) =>
        let key := rgbOpacityKey r g b (some (a.getD 1))
        if mapHas m key then m else m ++ [(key, ⟨v, v.name⟩)]
      | _ => m

/-- `getCollectionColorMap` from `code.ts`. -/
def getCollectionColorMap (env : CatalogEnv) (collectionName : String)
    (mode : String) (options : CollectionColorMapOptions) :
    Except String KeyMap :=
  match findVariableCollectionByName env collectionName with
  | .error e => .error e
  | .ok none => .ok []
  | .ok (some (.libraryC _)) => .ok []
  | .ok (some (.localC collection)) =>
    match resolveModeId collection mode with
    | none => .ok []
    | some modeId =>
      if options.useGroupFilters = false then
        .ok (collection.variableIds.foldl (colorMapStepNoFilter env modeId) [])
      else
        .ok ((filterOrder options.groupPrefixes).foldl
          (fun m p => collection.variableIds.foldl
            (colorMapStepFiltered env modeId p) m) [])

/-- The process-wide `variableListCacheMap`, modelled as an association
list. -/
abbrev VarListCache := List (String × List VarListEntry)

def cacheFind (c : VarListCache) (k : String) : Option (List VarListEntry) :=
  (c.find? (fun p => p.1 == k)).map (·.2)

def cacheSet (c : VarListCache) (k : String) (v : List VarListEntry) :
    VarListCache :=
  if (c.find? (fun p => p.1 == k)).isSome then
    c.map (fun p => if p.1 == k then (k, v) else p)
  else c ++ [(k, v)]

/-- The composite cache key of `getCollectionVariableList`. -/
def listCacheKey (collectionName mode : String) (useGroupFilters : Bool)
    (groupPrefixFilter : Option (List String)) : String :=
  let pk := match groupPrefixFilter with
    | some ps => String.intercalate "," ps
    | none => if useGroupFilters then "all" else "none"
  collectionName ++ "|" ++ mode ++ "|" ++
    (if useGroupFilters then "true" else "false") ++ "|" ++ pk

/-- One iteration of the candidate-list loop of
`getCollectionVariableList`. -/
def varListStep (env : CatalogEnv) (modeId : String)
    (prefixesToMatch : Option (List String)) (l : List VarListEntry)
    (vid : String) : List VarListEntry :=
  match env.getVar vid with
  | none => l
  | some v =>
    if v.isColor = false then l
    else
      let pass := match prefixesToMatch with
        | none => true
        | some ps => ps.any (fun p => matchesPfx v.name p)
      if pass = false then l
      else
        match lookupValue v modeId with
        | some (.colorV r g b _) => l ++ [⟨v.id, v.name, r, g, b⟩]
        | _ => l

/-- `getCollectionVariableList` from `code.ts`, with the cache threaded
explicitly. -/
def getCollectionVariableList (env : CatalogEnv) (cache : VarListCache)
    (collectionName mode : String) (useGroupFilters : Bool)
    (groupPrefixFilter : Option (List String)) :
    Except String (List VarListEntry × VarListCache) :=
  let key := listCacheKey collectionName mode useGroupFilters groupPrefixFilter
  match cacheFind cache key with
  | some cached => .ok (cached, cache)
  | none =>
    match findVariableCollectionByName env collectionName with
    | .error e => .error e
    | .ok none => .ok ([], cache)
    | .ok (some (.libraryC _)) => .ok ([], cache)
    | .ok (some (.localC collection)) =>
      match resolveModeId collection mode with
      | none => .ok ([], cache)
      | some modeId =>
        let prefixesToMatch : Option (List String) :=
          match groupPrefixFilter with
          | some ps => some ps
          | none => if useGroupFilters then some GROUP_FILTER_PREFIXES else none
        let list := collection.variableIds.foldl
          (varListStep env modeId prefixesToMatch) []
        .ok (list, cacheSet cache key list)

/-- The payload of the `candidatesResult` message. -/
structure CandidatesResult where
  hex : String
  candidates : List CandOut
  error : Option String
deriving DecidableEq

/-- The `getCandidatesForHex` command handler (`code.ts` lines 575–608):
invalid hex yields an empty list plus `"Invalid HEX"`; a collaborator
rejection is caught and yields an empty list plus the message; otherwise the
top-12 candidates (the handler inlines the same map/sort/slice pipeline as
`computeCandidates`). -/
def getCandidatesForHex (env : CatalogEnv) (cache : VarListCache)
    (msgHex collectionName mode : String) (useGroupFilters : Bool) :
    CandidatesResult × VarListCache :=
  let hexNorm := jsTrim (stripHash msgHex)
  match parseHexToRgb hexNorm with
  | none => (⟨hexNorm, [], some "Invalid HEX"⟩, cache)
  | some targetRgb =>
    match getCollectionVariableList env cache collectionName mode
      useGroupFilters none with
    | .error e => (⟨msgHex, [], some e⟩, cache)
    | .ok (list, cache') =>
      (⟨hexNorm, computeCandidates list targetRgb 12, none⟩, cache')

/-- A paint in a paint list.  `isSolid` models `type === "SOLID"`;
`boundVar` models the paint's bound color-variable reference, which is what
`node.boundVariables[property][index]` reflects in the host document. -/
structure Paint where
  isSolid : Bool
  color : RGB
  opacity : Option ℚ
  boundVar : Option String
deriving DecidableEq

/-- A scene node: `fills`/`strokes` are `none` when the property is missing,
`figma.mixed`, or not an array. -/
inductive SNode where
  | mk (id : String) (name : String) (fills : Option (List Paint))
      (strokes : Option (List Paint)) (children : List SNode)

/-- A node collected by `collectNodes` (it has a concrete fills array). -/
structure FlatNode where
  id : String
  name : String
  fills : List Paint
  strokes : Option (List Paint)
deriving DecidableEq

mutual

/-- `collectNodes` from `code.ts`: depth-first, node before children; a node
is kept iff its fills are a concrete array. -/
def collectNodes : SNode → List FlatNode
  | .mk i n fills strokes children =>
    (match fills with
     | some ps => [⟨i, n, ps, strokes⟩]
     | none => []) ++ collectNodesList children

/-- `selection.flatMap((n) => collectNodes(n))`. -/
def collectNodesList : List SNode → List FlatNode
  | [] => []
  | c :: cs => collectNodes c ++ collectNodesList cs

end

inductive PaintProp where
  | fills
  | strokes
deriving DecidableEq

/-- `node.boundVariables?.[property]?.[index]` for a collected node. -/
def boundVarAt (node : FlatNode) (property : PaintProp) (index : ℕ) :
    Option String :=
  match property with
  | .fills => (node.fills[index]?).bind Paint.boundVar
  | .strokes => (node.strokes.bind (fun ss => ss[index]?)).bind Paint.boundVar

/-- `isSolidUnbound` from `code.ts`. -/
def isSolidUnbound (node : FlatNode) (property : PaintProp) (index : ℕ) :
    Bool :=
  (boundVarAt node property index).isNone

/-- One scanned paint slot (`ScanItem` in `code.ts`). -/
structure ScanItem where
  nodeId : String
  nodeName : String
  property : PaintProp
  index : ℕ
  currentColor : RGB
  opacity : ℚ
  matchVariableId : Option String
  matchVariableName : Option String
deriving DecidableEq

/-- The per-property inner loop of `scanNodes`. -/
def scanPaints (node : FlatNode) (colorMap : KeyMap) (property : PaintProp)
    (paints : List Paint) : List ScanItem :=
  paints.enum.filterMap fun ip =>
    if ip.2.isSolid = false then none
    else if isSolidUnbound node property ip.1 = false then none
    else
      let mtch := mapFind colorMap
        (rgbOpacityKey ip.2.color.r ip.2.color.g ip.2.color.b
          (some (ip.2.opacity.getD 1)))
      some ⟨node.id, node.name, property, ip.1, ip.2.color, ip.2.opacity.getD 1,
        mtch.map (fun e => e.varRef.id), mtch.map (·.name)⟩

/-- `scanNodes` from `code.ts`: fills then strokes per node, in node
order. -/
def scanNodes (nodes : List FlatNode) (colorMap : KeyMap) : List ScanItem :=
  nodes.foldr
    (fun node acc =>
      scanPaints node colorMap .fills node.fills ++
        (match node.strokes with
         | some ss => scanPaints node colorMap .strokes ss
         | none => []) ++ acc) []

structure MatchedColorItem where
  hex : String
  tokenName : String
  variableId : String
deriving DecidableEq

structure NoMatchColorItem where
  hex : String
deriving DecidableEq

structure ScanResult where
  items : List ScanItem
  matchedColors : List MatchedColorItem
  noMatchColors : List NoMatchColorItem
  totalScanned : ℕ
  error : Option String
deriving DecidableEq

/-- Environment of a scan: catalog access plus the current selection and
page (`figma.currentPage`). -/
structure ScanEnv where
  cat : CatalogEnv
  selection : List SNode
  page : SNode

/-- The `matchedByHex` deduplication fold of `runScan` (first match wins per
hex). -/
def matchedByHexFold (items : List ScanItem) :
    List (String × String × String) :=
  items.foldl
    (fun acc item =>
      match item.matchVariableId, item.matchVariableName with
      | some vid, some vname =>
        let hex := rgbToHexStr item.currentColor.r item.currentColor.g
          item.currentColor.b
        if (acc.find? (fun p => p.1 == hex)).isSome then acc
        else acc ++ [(hex, vname, vid)]
      | _, _ => acc) []

/-- The `noMatchHexSet` fold of `runScan` (a JS `Set` keeps first-insertion
order). -/
def noMatchHexFold (items : List ScanItem) : List String :=
  items.foldl
    (fun acc item =>
      match item.matchVariableId, item.matchVariableName with
      | some _, some _ => acc
      | _, _ =>
        let hex := rgbToHexStr item.currentColor.r item.currentColor.g
          item.currentColor.b
        if hex ∈ acc then acc else acc ++ [hex]) []

/-- The Korean error string of `runScan`'s empty-catalog branch. -/
def emptyCatalogError (collectionName : String) (useGroupFilters : Bool) :
    String :=
  if useGroupFilters then
    "\"" ++ collectionName ++
      "\" 컬렉션에서 필터(Color, Black)에 맞는 COLOR 변수가 없습니다."
  else
    "\"" ++ collectionName ++
      "\" 컬렉션을 찾을 수 없거나 해당 모드에 COLOR 변수가 없습니다."

/-- `runScan` from `code.ts`.  The `try`/`catch` around the body is modelled
by handling the `Except` error of catalog access; the empty-catalog branch
returns the descriptive error string. -/
def runScan (env : ScanEnv) (collectionName mode : String)
    (useGroupFilters : Bool) : ScanResult :=
  match getCollectionColorMap env.cat collectionName mode
    ⟨useGroupFilters, GROUP_FILTER_PREFIXES⟩ with
  | .error e => ⟨[], [], [], 0, some e⟩
  | .ok colorMap =>
    if colorMap.length = 0 then
      ⟨[], [], [], 0, some (emptyCatalogError collectionName useGroupFilters)⟩
    else
      let nodes := if 0 < env.selection.length then
        collectNodesList env.selection else collectNodes env.page
      let items := scanNodes nodes colorMap
      let matched := (matchedByHexFold items).map
        fun e => (⟨e.1, e.2.1, e.2.2⟩ : MatchedColorItem)
      let noMatch := (isortJs (fun a b => decide (a < b))
        (noMatchHexFold items)).map (fun h => (⟨h⟩ : NoMatchColorItem))
      ⟨items, matched, noMatch, items.length, none⟩

/-- A node as seen by the apply phase (`getNodeByIdAsync` result):
`fills`/`strokes` are `none` when missing, `figma.mixed`, or not arrays. -/
structure DocNode where
  name : String
  fills : Option (List Paint)
  strokes : Option (List Paint)
deriving DecidableEq

/-- The host document, as an id → node map threaded through apply. -/
abbrev Doc := String → Option DocNode

def getPaints (n : DocNode) (property : PaintProp) : Option (List Paint) :=
  match property with
  | .fills => n.fills
  | .strokes => n.strokes

def setPaints (n : DocNode) (property : PaintProp) (ps : List Paint) :
    DocNode :=
  match property with
  | .fills => { n with fills := some ps }
  | .strokes => { n with strokes := some ps }

def updateDoc (doc : Doc) (nodeId : String) (n : DocNode) : Doc :=
  fun s => if s = nodeId then some n else doc s

/-- Host environment of the apply phase.  `varExists` models whether
`getVariableByIdAsync` resolves the id; `bindFails` is the throw oracle of
`setBoundVariableForPaint` (`some msg` = the call throws `msg`). -/
structure ApplyEnv where
  varExists : String → Bool
  bindFails : String → Paint → Option String

/-- `figma.variables.setBoundVariableForPaint(paint, "color", variable)`:
either throws, or returns a copy of the paint carrying the bound variable
reference (which is what makes `boundVariables[property][index]` non-null
once the paint is written back). -/
def setBoundVariableForPaint (env : ApplyEnv) (p : Paint) (vid : String) :
    Except String Paint :=
  match env.bindFails vid p with
  | some msg => .error msg
  | none => .ok { p with boundVar := some vid }

/-- Per-item outcome of the apply loops. -/
inductive Outcome where
  | applied
  | skipped
  | failed (reason : String)
deriving DecidableEq

/-- `node.boundVariables?.[property]?.[index]` at apply time. -/
def docBoundAt (paints : List Paint) (index : ℕ) : Option String :=
  (paints[index]?).bind Paint.boundVar

/-- One iteration of the `applyBindingsToItems` loop (`code.ts` 339–409):
resolve the variable (Failed), resolve the node (Failed), re-verify the paint
list exists, the slot is unbound and the paint is a solid (Skipped), then
bind (Applied, or Failed when the bind throws). -/
def applyStep (env : ApplyEnv) (doc : Doc) (item : ScanItem) (vid : String) :
    Doc × Outcome :=
  if env.varExists vid = false then
    (doc, .failed ("[" ++ item.nodeName ++ "] 변수를 찾을 수 없음: " ++ vid))
  else
    match doc item.nodeId with
    | none =>
      (doc, .failed ("[" ++ item.nodeName ++ "] 노드를 찾을 수 없음: " ++ item.nodeId))
    | some node =>
      match getPaints node item.property with
      | none => (doc, .skipped)
      | some paints =>
        if (docBoundAt paints item.index).isSome then (doc, .skipped)
        else
          match paints[item.index]? with
          | none => (doc, .skipped)
          | some paint =>
            if paint.isSolid = false then (doc, .skipped)
            else
              match setBoundVariableForPaint env paint vid with
              | .error msg =>
                (doc, .failed ("[" ++ item.nodeName ++ "] " ++
                  (match item.property with
                   | .fills => "fills"
                   | .strokes => "strokes") ++ "[" ++ toString item.index ++
                  "]: " ++ msg))
              | .ok newPaint =>
                (updateDoc doc item.nodeId
                  (setPaints node item.property
                    (paints.set item.index newPaint)), .applied)

/-- `items.filter((i) => i.matchVariableId != null)`, carrying the non-null
id alongside each kept item. -/
def matchedItems (items : List ScanItem) : List (ScanItem × String) :=
  items.filterMap fun i => i.matchVariableId.map (fun v => (i, v))

/-- The `applyBindingsToItems` loop over the filtered items, returning the
final document and the per-item outcomes in order. -/
def applyItemsGo (env : ApplyEnv) (doc : Doc) :
    List (ScanItem × String) → Doc × List Outcome
  | [] => (doc, [])
  | iv :: rest =>
    let s := applyStep env doc iv.1 iv.2
    let r := applyItemsGo env s.1 rest
    (r.1, s.2 :: r.2)

/-- Aggregate result of an apply (`ApplyResult` in `code.ts`). -/
structure ApplyResult where
  appliedCount : ℕ
  skippedCount : ℕ
  failedCount : ℕ
  failedReasons : List String
deriving DecidableEq

/-- Folding the per-item outcomes into the aggregate result; each `failed`
outcome increments `failedCount` and pushes exactly one reason, in order,
exactly as the source's loop does. -/
def resultOfOutcomes : List Outcome → ApplyResult
  | [] => ⟨0, 0, 0, []⟩
  | o :: rest =>
    let r := resultOfOutcomes rest
    match o with
    | .applied => { r with appliedCount := r.appliedCount + 1 }
    | .skipped => { r with skippedCount := r.skippedCount + 1 }
    | .failed reason =>
      { r with
          failedCount := r.failedCount + 1
          failedReasons := reason :: r.failedReasons }

/-- `applyBindingsToItems` from `code.ts`. -/
def applyBindingsToItems (env : ApplyEnv) (doc : Doc)
    (items : List ScanItem) : Doc × ApplyResult :=
  let r := applyItemsGo env doc (matchedItems items)
  (r.1, resultOfOutcomes r.2)

/-- One iteration of the `applyTokenToColor` loop (`code.ts` 427–481): the
node is re-resolved and the slot re-checked for existence and solidity, but —
unlike `applyBindingsToItems` — there is no re-check that the slot is still
unbound. -/
def applyOneStep (env : ApplyEnv) (doc : Doc) (item : ScanItem)
    (vid : String) : Doc × Outcome :=
  match doc item.nodeId with
  | none => (doc, .failed ("[" ++ item.nodeName ++ "] 노드를 찾을 수 없음"))
  | some node =>
    match getPaints node item.property with
    | none => (doc, .skipped)
    | some paints =>
      match paints[item.index]? with
      | none => (doc, .skipped)
      | some paint =>
        if paint.isSolid = false then (doc, .skipped)
        else
          match setBoundVariableForPaint env paint vid with
          | .error msg =>
            (doc, .failed ("[" ++ item.nodeName ++ "]: " ++ msg))
          | .ok newPaint =>
            (updateDoc doc item.nodeId
              (setPaints node item.property
                (paints.set item.index newPaint)), .applied)

def applyOneGo (env : ApplyEnv) (vid : String) (doc : Doc) :
    List ScanItem → Doc × List Outcome
  | [] => (doc, [])
  | item :: rest =>
    let s := applyOneStep env doc item vid
    let r := applyOneGo env vid s.1 rest
    (r.1, s.2 :: r.2)

/-- The `itemsToBind` filter of `applyTokenToColor`: currently-unmatched
items of the last scan whose hex equals the target hex. -/
def itemsToBindFor (lastScanItems : List ScanItem) (hex : String) :
    List ScanItem :=
  let targetHex := jsTrim (stripHash hex)
  lastScanItems.filter fun item =>
    item.matchVariableId.isNone &&
      (rgbToHexStr item.currentColor.r item.currentColor.g
        item.currentColor.b == targetHex)

/-- `applyTokenToColor` from `code.ts`: if no item matches the hex, an empty
result; if the chosen variable id does not resolve, a single unprefixed
"변수를 찾을 수 없음" reason with `failedCount` equal to the number of
matching items; otherwise the per-item loop. -/
def applyTokenToColor (env : ApplyEnv) (doc : Doc)
    (lastScanItems : List ScanItem) (hex : String) (variableId : String) :
    Doc × ApplyResult :=
  let itemsToBind := itemsToBindFor lastScanItems hex
  if itemsToBind.length = 0 then (doc, ⟨0, 0, 0, []⟩)
  else if env.varExists variableId = false then
    (doc, ⟨0, 0, itemsToBind.length, ["변수를 찾을 수 없음"]⟩)
  else
    let r := applyOneGo env variableId doc itemsToBind
    (r.1, resultOfOutcomes r.2)

theorem resultOfOutcomes_reasons_length (outs : List Outcome) :
    (resultOfOutcomes outs).failedReasons.length =
      (resultOfOutcomes outs).failedCount := by
  induction outs with
  | nil => rfl
  | cons o rest ih => cases o <;> simp [resultOfOutcomes, ih]

theorem resultOfOutcomes_counts (outs : List Outcome) :
    (resultOfOutcomes outs).appliedCount + (resultOfOutcomes outs).skippedCount +
      (resultOfOutcomes outs).failedCount = outs.length := by
  induction outs with
  | nil => rfl
  | cons o rest ih => cases o <;> (simp [resultOfOutcomes]; omega)

theorem mem_outs_of_mem_reasons {outs : List Outcome} {r : String}
    (h : r ∈ (resultOfOutcomes outs).failedReasons) : Outcome.failed r ∈ outs := by
  induction outs with
  | nil => simp [resultOfOutcomes] at h
  | cons o rest ih =>
    cases o with
    | applied => exact List.mem_cons_of_mem _ (ih h)
    | skipped => exact List.mem_cons_of_mem _ (ih h)
    | failed reason =>
      rw [resultOfOutcomes] at h
      simp only [List.mem_cons] at h
      rcases h with rfl | h
      · exact List.mem_cons_self _ _
      · exact List.mem_cons_of_mem _ (ih h)

theorem applyItemsGo_length (env : ApplyEnv) (doc : Doc)
    (l : List (ScanItem × String)) :
    ((applyItemsGo env doc l).2).length = l.length := by
  induction l generalizing doc with
  | nil => rfl
  | cons iv rest ih => simp [applyItemsGo, ih]

theorem applyOneGo_length (env : ApplyEnv) (vid : String) (doc : Doc)
    (l : List ScanItem) :
    ((applyOneGo env vid doc l).2).length = l.length := by
  induction l generalizing doc with
  | nil => rfl
  | cons item rest ih => simp [applyOneGo, ih]

theorem applyStep_failed_form {env : ApplyEnv} {doc : Doc} {item : ScanItem}
    {vid : String} {d : Doc} {r : String}
    (h : applyStep env doc item vid = (d, Outcome.failed r)) :
    ∃ m, r = "[" ++ item.nodeName ++ "]" ++ m := by
  rw [applyStep] at h
  split at h
  · rw [Prod.mk.injEq] at h
    obtain rfl : _ = r := Outcome.failed.inj h.2
    refine ⟨" 변수를 찾을 수 없음: " ++ vid, ?_⟩
    rw [show ("] 변수를 찾을 수 없음: " : String) = "]" ++ " 변수를 찾을 수 없음: "
      from by decide]
    simp only [String.append_assoc]
  · split at h
    · rw [Prod.mk.injEq] at h
      obtain rfl : _ = r := Outcome.failed.inj h.2
      refine ⟨" 노드를 찾을 수 없음: " ++ item.nodeId, ?_⟩
      rw [show ("] 노드를 찾을 수 없음: " : String) = "]" ++ " 노드를 찾을 수 없음: "
        from by decide]
      simp only [String.append_assoc]
    · split at h
      · simp at h
      · split at h
        · simp at h
        · split at h
          · simp at h
          · split at h
            · simp at h
            · split at h
              · rename_i msg hmsg
                rw [Prod.mk.injEq] at h
                obtain rfl : _ = r := Outcome.failed.inj h.2
                refine ⟨" " ++ (match item.property with
                  | .fills => "fills"
                  | .strokes => "strokes") ++ "[" ++ toString item.index ++
                  "]: " ++ msg, ?_⟩
                rw [show ("] " : String) = "]" ++ " " from by decide]
                simp only [String.append_assoc]
              · simp at h

theorem applyOneStep_failed_form {env : ApplyEnv} {doc : Doc}
    {item : ScanItem} {vid : String} {d : Doc} {r : String}
    (h : applyOneStep env doc item vid = (d, Outcome.failed r)) :
    ∃ m, r = "[" ++ item.nodeName ++ "]" ++ m := by
  rw [applyOneStep] at h
  split at h
  · rw [Prod.mk.injEq] at h
    obtain rfl : _ = r := Outcome.failed.inj h.2
    refine ⟨" 노드를 찾을 수 없음", ?_⟩
    rw [show ("] 노드를 찾을 수 없음" : String) = "]" ++ " 노드를 찾을 수 없음"
      from by decide]
    simp only [String.append_assoc]
  · split at h
    · simp at h
    · split at h
      · simp at h
      · split at h
        · simp at h
        · split at h
          · rename_i msg hmsg
            rw [Prod.mk.injEq] at h
            obtain rfl : _ = r := Outcome.failed.inj h.2
            refine ⟨": " ++ msg, ?_⟩
            rw [show ("]: " : String) = "]" ++ ": " from by decide]
            simp only [String.append_assoc]
          · simp at h

theorem applyItemsGo_failed_mem {env : ApplyEnv} {l : List (ScanItem × String)} :
    ∀ {doc : Doc} {r : String},
      Outcome.failed r ∈ (applyItemsGo env doc l).2 →
      ∃ iv, iv ∈ l ∧ ∃ m, r = "[" ++ iv.1.nodeName ++ "]" ++ m := by
  induction l with
  | nil =>
    intro doc r h
    simp [applyItemsGo] at h
  | cons iv rest ih =>
    intro doc r h
    rw [applyItemsGo] at h
    simp only [List.mem_cons] at h
    rcases h with h | h
    · have hstep : applyStep env doc iv.1 iv.2 =
          ((applyStep env doc iv.1 iv.2).1, Outcome.failed r) :=
        Prod.ext rfl h.symm
      obtain ⟨m, hm⟩ := applyStep_failed_form hstep
      exact ⟨iv, List.mem_cons_self _ _, m, hm⟩
    · obtain ⟨iv', hiv', m, hm⟩ := ih h
      exact ⟨iv', List.mem_cons_of_mem _ hiv', m, hm⟩

theorem applyOneGo_failed_mem {env : ApplyEnv} {vid : String}
    {l : List ScanItem} :
    ∀ {doc : Doc} {r : String},
      Outcome.failed r ∈ (applyOneGo env vid doc l).2 →
      ∃ item, item ∈ l ∧ ∃ m, r = "[" ++ item.nodeName ++ "]" ++ m := by
  induction l with
  | nil =>
    intro doc r h
    simp [applyOneGo] at h
  | cons item rest ih =>
    intro doc r h
    rw [applyOneGo] at h
    simp only [List.mem_cons] at h
    rcases h with h | h
    · have hstep : applyOneStep env doc item vid =
          ((applyOneStep env doc item vid).1, Outcome.failed r) :=
        Prod.ext rfl h.symm
      obtain ⟨m, hm⟩ := applyOneStep_failed_form hstep
      exact ⟨item, List.mem_cons_self _ _, m, hm⟩
    · obtain ⟨item', hitem', m, hm⟩ := ih h
      exact ⟨item', List.mem_cons_of_mem _ hitem', m, hm⟩

theorem mem_items_of_mem_matchedItems {items : List ScanItem}
    {iv : ScanItem × String} (h : iv ∈ matchedItems items) : iv.1 ∈ items := by
  rw [matchedItems, List.mem_filterMap] at h
  obtain ⟨a, ha, hmap⟩ := h
  rcases Option.map_eq_some'.mp hmap with ⟨v, -, rfl⟩
  exact ha

theorem mem_items_of_mem_itemsToBindFor {items : List ScanItem} {hex : String}
    {item : ScanItem} (h : item ∈ itemsToBindFor items hex) : item ∈ items := by
  rw [itemsToBindFor] at h
  exact (List.mem_filter.mp h).1

/-- C2 (amended): in `applyBindingsToItems` every per-item failure is
recorded without aborting the batch — the applied/skipped/failed counts sum
to the number of matched items — and `failedReasons` holds exactly one
string per failed item, each prefixed with the owning element's display name
in brackets.  In `applyTokenToColor` the same holds once the chosen variable
id resolves; when it does not resolve, the call instead reports every
matching item as failed with a single, unprefixed reason string (see
`applyTokenToColor_single_reason_ce`), which is what forces this amendment. -/
theorem apply_failure_reporting (env : ApplyEnv) (doc : Doc)
    (items : List ScanItem) (hex vid : String) :
    ((applyBindingsToItems env doc items).2.failedReasons.length =
        (applyBindingsToItems env doc items).2.failedCount ∧
      (applyBindingsToItems env doc items).2.appliedCount +
          (applyBindingsToItems env doc items).2.skippedCount +
          (applyBindingsToItems env doc items).2.failedCount =
        (matchedItems items).length ∧
      ∀ r ∈ (applyBindingsToItems env doc items).2.failedReasons,
        ∃ i, i ∈ items ∧ ∃ m, r = "[" ++ i.nodeName ++ "]" ++ m) ∧
    (env.varExists vid = true →
      (applyTokenToColor env doc items hex vid).2.failedReasons.length =
        (applyTokenToColor env doc items hex vid).2.failedCount ∧
      (applyTokenToColor env doc items hex vid).2.appliedCount +
          (applyTokenToColor env doc items hex vid).2.skippedCount +
          (applyTokenToColor env doc items hex vid).2.failedCount =
        (itemsToBindFor items hex).length ∧
      ∀ r ∈ (applyTokenToColor env doc items hex vid).2.failedReasons,
        ∃ i, i ∈ items ∧ ∃ m, r = "[" ++ i.nodeName ++ "]" ++ m) := by
  constructor
  · have h2 : (applyBindingsToItems env doc items).2 =
        resultOfOutcomes (applyItemsGo env doc (matchedItems items)).2 := rfl
    rw [h2]
    refine ⟨resultOfOutcomes_reasons_length _, ?_, ?_⟩
    · rw [resultOfOutcomes_counts, applyItemsGo_length]
    · intro r hr
      obtain ⟨iv, hiv, m, hm⟩ :=
        applyItemsGo_failed_mem (mem_outs_of_mem_reasons hr)
      exact ⟨iv.1, mem_items_of_mem_matchedItems hiv, m, hm⟩
  · intro hv
    by_cases hn : (itemsToBindFor items hex).length = 0
    · have h2 : applyTokenToColor env doc items hex vid = (doc, ⟨0, 0, 0, []⟩) := by
        simp only [applyTokenToColor]
        rw [if_pos hn]
      rw [h2]
      refine ⟨rfl, by simpa using hn.symm, ?_⟩
      intro r hr
      simp at hr
    · have h2 : (applyTokenToColor env doc items hex vid).2 =
          resultOfOutcomes (applyOneGo env vid doc (itemsToBindFor items hex)).2 := by
        simp only [applyTokenToColor]
        rw [if_neg hn, if_neg (by rw [hv]; exact fun hc => Bool.noConfusion hc)]
      rw [h2]
      refine ⟨resultOfOutcomes_reasons_length _, ?_, ?_⟩
      · rw [resultOfOutcomes_counts, applyOneGo_length]
      · intro r hr
        obtain ⟨item, hitem, m, hm⟩ :=
          applyOneGo_failed_mem (mem_outs_of_mem_reasons hr)
        exact ⟨item, mem_items_of_mem_itemsToBindFor hitem, m, hm⟩

/-- C2 (counterexample): `applyTokenToColor` with an unresolvable variable id
and two matching items reports `failedCount = 2` but only one reason string,
and that string is not prefixed with any element name (it does not even start
with a bracket) — refuting "exactly one string per failed item, each
prefixed with the owning element's display name" for this entry point. -/
theorem applyTokenToColor_single_reason_ce :
    (applyTokenToColor ⟨fun _ => false, fun _ _ => none⟩ (fun _ => none)
        [⟨"n1", "a", .fills, 0, ⟨0, 0, 0⟩, 1, none, none⟩,
          ⟨"n2", "b", .fills, 0, ⟨0, 0, 0⟩, 1, none, none⟩] "000000" "v").2 =
      ⟨0, 0, 2, ["변수를 찾을 수 없음"]⟩ ∧
      ("변수를 찾을 수 없음" : String).data.head? ≠ some '[' := by
  constructor
  · have ht : jsTrim (stripHash "000000") = "000000" := by decide
    have hfilter : itemsToBindFor
        [⟨"n1", "a", .fills, 0, ⟨0, 0, 0⟩, 1, none, none⟩,
          ⟨"n2", "b", .fills, 0, ⟨0, 0, 0⟩, 1, none, none⟩] "000000" =
        [⟨"n1", "a", .fills, 0, ⟨0, 0, 0⟩, 1, none, none⟩,
          ⟨"n2", "b", .fills, 0, ⟨0, 0, 0⟩, 1, none, none⟩] := by
      simp only [itemsToBindFor, ht]
      simp [rgbToHexStr_000]
    simp only [applyTokenToColor, hfilter]
    simp
  · decide

/-- C2 (witness): the failure-reporting theorem applied at a concrete
environment whose variable lookup succeeds. -/
theorem apply_failure_reporting_witness :
    (⟨fun _ => true, fun _ _ => none⟩ : ApplyEnv).varExists "v" = true ∧
    ((applyTokenToColor ⟨fun _ => true, fun _ _ => none⟩ (fun _ => none)
          [] "00" "v").2.failedReasons.length =
        (applyTokenToColor ⟨fun _ => true, fun _ _ => none⟩ (fun _ => none)
          [] "00" "v").2.failedCount ∧
      (applyTokenToColor ⟨fun _ => true, fun _ _ => none⟩ (fun _ => none)
            [] "00" "v").2.appliedCount +
          (applyTokenToColor ⟨fun _ => true, fun _ _ => none⟩ (fun _ => none)
            [] "00" "v").2.skippedCount +
          (applyTokenToColor ⟨fun _ => true, fun _ _ => none⟩ (fun _ => none)
            [] "00" "v").2.failedCount =
        (itemsToBindFor [] "00").length ∧
      ∀ r ∈ (applyTokenToColor ⟨fun _ => true, fun _ _ => none⟩ (fun _ => none)
          [] "00" "v").2.failedReasons,
        ∃ i, i ∈ ([] : List ScanItem) ∧ ∃ m, r = "[" ++ i.nodeName ++ "]" ++ m) :=
  ⟨rfl, (apply_failure_reporting ⟨fun _ => true, fun _ _ => none⟩
    (fun _ => none) [] "00" "v").2 rfl⟩

/-- The target slot exists and is a solid paint. -/
def slotPresentSolid (node : DocNode) (item : ScanItem) : Prop :=
  ∃ paints paint, getPaints node item.property = some paints ∧
    paints[item.index]? = some paint ∧ paint.isSolid = true

/-- The target slot exists, is a solid paint, and is still unbound — the full
re-validation of `applyBindingsToItems`. -/
def slotEligible (node : DocNode) (item : ScanItem) : Prop :=
  ∃ paints paint, getPaints node item.property = some paints ∧
    paints[item.index]? = some paint ∧ paint.isSolid = true ∧
    paint.boundVar = none

theorem applyStep_eval (env : ApplyEnv) (doc : Doc) (item : ScanItem)
    (vid : String) (node : DocNode)
    (hv : env.varExists vid = true) (hnode : doc item.nodeId = some node) :
    applyStep env doc item vid =
      (match getPaints node item.property with
       | none => (doc, Outcome.skipped)
       | some paints =>
         if (docBoundAt paints item.index).isSome then (doc, .skipped)
         else
           match paints[item.index]? with
           | none => (doc, .skipped)
           | some paint =>
             if paint.isSolid = false then (doc, .skipped)
             else
               match setBoundVariableForPaint env paint vid with
               | .error msg =>
                 (doc, .failed ("[" ++ item.nodeName ++ "] " ++
                   (match item.property with
                    | .fills => "fills"
                    | .strokes => "strokes") ++ "[" ++ toString item.index ++
                   "]: " ++ msg))
               | .ok newPaint =>
                 (updateDoc doc item.nodeId
                   (setPaints node item.property
                     (paints.set item.index newPaint)), .applied)) := by
  rw [applyStep, if_neg (by rw [hv]; exact fun hc => Bool.noConfusion hc), hnode]

theorem applyOneStep_eval (env : ApplyEnv) (doc : Doc) (item : ScanItem)
    (vid : String) (node : DocNode) (hnode : doc item.nodeId = some node) :
    applyOneStep env doc item vid =
      (match getPaints node item.property with
       | none => (doc, Outcome.skipped)
       | some paints =>
         match paints[item.index]? with
         | none => (doc, .skipped)
         | some paint =>
           if paint.isSolid = false then (doc, .skipped)
           else
             match setBoundVariableForPaint env paint vid with
             | .error msg => (doc, .failed ("[" ++ item.nodeName ++ "]: " ++ msg))
             | .ok newPaint =>
               (updateDoc doc item.nodeId
                 (setPaints node item.property
                   (paints.set item.index newPaint)), .applied)) := by
  rw [applyOneStep, hnode]

/-- C3 (amended): for an item whose variable and node both resolve,
`applyBindingsToItems`' per-item step re-verifies the slot: if it is missing,
not solid, or already bound, the item is Skipped and the document is returned
unmodified, and an Applied outcome can only arise from a slot passing all
three checks.  `applyTokenToColor`'s per-item step re-verifies only existence
and solidity — a missing or non-solid slot is Skipped with the document
unmodified — but it does not re-check boundness: a present solid slot is
re-bound (Applied) whenever the bind call succeeds, even if the slot already
carries a bound variable (see `applyTokenToColor_rebinds_bound_slot_ce`). -/
theorem apply_slot_reverification (env : ApplyEnv) (doc : Doc)
    (item : ScanItem) (vid : String) (node : DocNode)
    (hv : env.varExists vid = true) (hnode : doc item.nodeId = some node) :
    (¬ slotEligible node item →
      applyStep env doc item vid = (doc, Outcome.skipped)) ∧
    ((applyStep env doc item vid).2 = Outcome.applied →
      slotEligible node item) ∧
    (¬ slotPresentSolid node item →
      applyOneStep env doc item vid = (doc, Outcome.skipped)) ∧
    (∀ paints paint, getPaints node item.property = some paints →
      paints[item.index]? = some paint → paint.isSolid = true →
      env.bindFails vid paint = none →
      (applyOneStep env doc item vid).2 = Outcome.applied) := by
  rw [applyStep_eval env doc item vid node hv hnode,
    applyOneStep_eval env doc item vid node hnode]
  refine ⟨?_, ?_, ?_, ?_⟩
  · intro hne
    rcases hgp : getPaints node item.property with - | paints
    · rfl
    · dsimp only
      by_cases hb : (docBoundAt paints item.index).isSome
      · rw [if_pos hb]
      · rw [if_neg hb]
        rcases hpi : paints[item.index]? with - | paint
        · rfl
        · dsimp only
          by_cases hs : paint.isSolid = false
          · rw [if_pos hs]
          · exfalso
            refine hne ⟨paints, paint, hgp, hpi, ?_, ?_⟩
            · cases hval : paint.isSolid
              · exact absurd hval hs
              · rfl
            · rw [docBoundAt, hpi] at hb
              exact Option.not_isSome_iff_eq_none.mp hb
  · intro happ
    rcases hgp : getPaints node item.property with - | paints
    · rw [hgp] at happ
      simp at happ
    · rw [hgp] at happ
      dsimp only at happ
      by_cases hb : (docBoundAt paints item.index).isSome
      · rw [if_pos hb] at happ
        simp at happ
      · rw [if_neg hb] at happ
        rcases hpi : paints[item.index]? with - | paint
        · rw [hpi] at happ
          simp at happ
        · rw [hpi] at happ
          dsimp only at happ
          by_cases hs : paint.isSolid = false
          · rw [if_pos hs] at happ
            simp at happ
          · refine ⟨paints, paint, hgp, hpi, ?_, ?_⟩
            · cases hval : paint.isSolid
              · exact absurd hval hs
              · rfl
            · rw [docBoundAt, hpi] at hb
              exact Option.not_isSome_iff_eq_none.mp hb
  · intro hns
    rcases hgp : getPaints node item.property with - | paints
    · rfl
    · dsimp only
      rcases hpi : paints[item.index]? with - | paint
      · rfl
      · dsimp only
        by_cases hs : paint.isSolid = false
        · rw [if_pos hs]
        · exfalso
          refine hns ⟨paints, paint, hgp, hpi, ?_⟩
          cases hval : paint.isSolid
          · exact absurd hval hs
          · rfl
  · intro ps p hps hpp hsolid hbind
    rw [hps]
    dsimp only
    rw [hpp]
    dsimp only
    rw [if_neg (by rw [hsolid]; exact fun hc => Bool.noConfusion hc)]
    rw [setBoundVariableForPaint, hbind]

/-- C3 (counterexample): `applyTokenToColor` on a slot that already carries a
bound variable reference (`boundVar = some "old"`) records Applied — it
re-binds the slot — instead of Skipped, refuting the claim that both entry
points skip already-bound slots. -/
theorem applyTokenToColor_rebinds_bound_slot_ce :
    (⟨true, ⟨0, 0, 0⟩, some 1, some "old"⟩ : Paint).boundVar = some "old" ∧
    (applyTokenToColor ⟨fun _ => true, fun _ _ => none⟩
        (fun s => if s = "n1" then
          some ⟨"a", some [⟨true, ⟨0, 0, 0⟩, some 1, some "old"⟩], none⟩
          else none)
        [⟨"n1", "a", .fills, 0, ⟨0, 0, 0⟩, 1, none, none⟩] "000000" "v").2 =
      ⟨1, 0, 0, []⟩ := by
  refine ⟨rfl, ?_⟩
  have ht : jsTrim (stripHash "000000") = "000000" := by decide
  have hfilter : itemsToBindFor
      [⟨"n1", "a", .fills, 0, ⟨0, 0, 0⟩, 1, none, none⟩] "000000" =
      [⟨"n1", "a", .fills, 0, ⟨0, 0, 0⟩, 1, none, none⟩] := by
    simp only [itemsToBindFor, ht]
    simp [rgbToHexStr_000]
  simp only [applyTokenToColor, hfilter]
  simp [applyOneGo, applyOneStep, getPaints, setBoundVariableForPaint,
    resultOfOutcomes, setPaints]

/-- C3 (witness): the re-verification theorem applied at a concrete
environment, document and item. -/
theorem apply_slot_reverification_witness :
    (⟨fun _ => true, fun _ _ => none⟩ : ApplyEnv).varExists "v" = true ∧
    ((fun s => if s = "n1" then
        some (⟨"a", some [⟨true, ⟨0, 0, 0⟩, some 1, none⟩], none⟩ : DocNode)
        else none) : Doc) "n1" =
      some ⟨"a", some [⟨true, ⟨0, 0, 0⟩, some 1, none⟩], none⟩ ∧
    ((¬ slotEligible ⟨"a", some [⟨true, ⟨0, 0, 0⟩, some 1, none⟩], none⟩
        ⟨"n1", "a", .fills, 0, ⟨0, 0, 0⟩, 1, none, none⟩ →
      applyStep ⟨fun _ => true, fun _ _ => none⟩
        (fun s => if s = "n1" then
          some ⟨"a", some [⟨true, ⟨0, 0, 0⟩, some 1, none⟩], none⟩ else none)
        ⟨"n1", "a", .fills, 0, ⟨0, 0, 0⟩, 1, none, none⟩ "v" =
        ((fun s => if s = "n1" then
          some ⟨"a", some [⟨true, ⟨0, 0, 0⟩, some 1, none⟩], none⟩ else none),
          Outcome.skipped)) ∧
    ((applyStep ⟨fun _ => true, fun _ _ => none⟩
        (fun s => if s = "n1" then
          some ⟨"a", some [⟨true, ⟨0, 0, 0⟩, some 1, none⟩], none⟩ else none)
        ⟨"n1", "a", .fills, 0, ⟨0, 0, 0⟩, 1, none, none⟩ "v").2 =
        Outcome.applied →
      slotEligible ⟨"a", some [⟨true, ⟨0, 0, 0⟩, some 1, none⟩], none⟩
        ⟨"n1", "a", .fills, 0, ⟨0, 0, 0⟩, 1, none, none⟩) ∧
    (¬ slotPresentSolid ⟨"a", some [⟨true, ⟨0, 0, 0⟩, some 1, none⟩], none⟩
        ⟨"n1", "a", .fills, 0, ⟨0, 0, 0⟩, 1, none, none⟩ →
      applyOneStep ⟨fun _ => true, fun _ _ => none⟩
        (fun s => if s = "n1" then
          some ⟨"a", some [⟨true, ⟨0, 0, 0⟩, some 1, none⟩], none⟩ else none)
        ⟨"n1", "a", .fills, 0, ⟨0, 0, 0⟩, 1, none, none⟩ "v" =
        ((fun s => if s = "n1" then
          some ⟨"a", some [⟨true, ⟨0, 0, 0⟩, some 1, none⟩], none⟩ else none),
          Outcome.skipped)) ∧
    (∀ paints paint,
      getPaints ⟨"a", some [⟨true, ⟨0, 0, 0⟩, some 1, none⟩], none⟩
        (⟨"n1", "a", .fills, 0, ⟨0, 0, 0⟩, 1, none, none⟩ : ScanItem).property =
        some paints →
      paints[(⟨"n1", "a", .fills, 0, ⟨0, 0, 0⟩, 1, none, none⟩ : ScanItem).index]? =
        some paint →
      paint.isSolid = true →
      (⟨fun _ => true, fun _ _ => none⟩ : ApplyEnv).bindFails "v" paint = none →
      (applyOneStep ⟨fun _ => true, fun _ _ => none⟩
        (fun s => if s = "n1" then
          some ⟨"a", some [⟨true, ⟨0, 0, 0⟩, some 1, none⟩], none⟩ else none)
        ⟨"n1", "a", .fills, 0, ⟨0, 0, 0⟩, 1, none, none⟩ "v").2 =
        Outcome.applied)) :=
  ⟨rfl, rfl,
    apply_slot_reverification ⟨fun _ => true, fun _ _ => none⟩
      (fun s => if s = "n1" then
        some ⟨"a", some [⟨true, ⟨0, 0, 0⟩, some 1, none⟩], none⟩ else none)
      ⟨"n1", "a", .fills, 0, ⟨0, 0, 0⟩, 1, none, none⟩ "v"
      ⟨"a", some [⟨true, ⟨0, 0, 0⟩, some 1, none⟩], none⟩ rfl rfl⟩

/-- A slot of the document that already carries a bound variable
reference. -/
def slotBound (doc : Doc) (nodeId : String) (property : PaintProp)
    (index : ℕ) : Prop :=
  ∃ node paints paint, doc nodeId = some node ∧
    getPaints node property = some paints ∧
    paints[index]? = some paint ∧ paint.boundVar.isSome = true

theorem getPaints_setPaints (n : DocNode) (property : PaintProp)
    (ps : List Paint) :
    getPaints (setPaints n property ps) property = some ps := by
  cases property <;> rfl

theorem getPaints_setPaints_ne (n : DocNode) {p q : PaintProp}
    (h : p ≠ q) (ps : List Paint) :
    getPaints (setPaints n q ps) p = getPaints n p := by
  cases p <;> cases q <;> first | exact absurd rfl h | rfl

/-- The document returned by `applyBindingsToItems`' per-item step is either
unchanged, or updated by writing a paint bound to the chosen variable at the
item's slot. -/
theorem applyStep_doc (env : ApplyEnv) (doc : Doc) (item : ScanItem)
    (vid : String) :
    (applyStep env doc item vid).1 = doc ∨
    ∃ node paints newPaint,
      doc item.nodeId = some node ∧
      getPaints node item.property = some paints ∧
      item.index < paints.length ∧
      newPaint.boundVar = some vid ∧
      (applyStep env doc item vid).1 =
        updateDoc doc item.nodeId
          (setPaints node item.property (paints.set item.index newPaint)) := by
  by_cases hv : env.varExists vid = true
  · rcases hnode : doc item.nodeId with - | node
    · left
      rw [applyStep, if_neg (by rw [hv]; exact fun hc => Bool.noConfusion hc),
        hnode]
    · rw [applyStep_eval env doc item vid node hv hnode]
      rcases hgp : getPaints node item.property with - | paints
      · left; rfl
      · dsimp only
        by_cases hb : (docBoundAt paints item.index).isSome
        · rw [if_pos hb]; left; rfl
        · rw [if_neg hb]
          rcases hpi : paints[item.index]? with - | paint
          · left; rfl
          · dsimp only
            by_cases hs : paint.isSolid = false
            · rw [if_pos hs]; left; rfl
            · rw [if_neg hs]
              rcases hbf : env.bindFails vid paint with - | msg
              · rw [setBoundVariableForPaint, hbf]
                dsimp only
                right
                exact ⟨node, paints, { paint with boundVar := some vid },
                  rfl, hgp, (List.getElem?_eq_some.mp hpi).1, rfl, rfl⟩
              · rw [setBoundVariableForPaint, hbf]
                dsimp only
                left; rfl
  · left
    rw [applyStep, if_pos (by simpa using hv)]

/-- An Applied outcome implies that the variable resolved and the slot is
bound in the returned document. -/
theorem applyStep_applied_bound {env : ApplyEnv} {doc : Doc}
    {item : ScanItem} {vid : String} {d : Doc}
    (h : applyStep env doc item vid = (d, Outcome.applied)) :
    env.varExists vid = true ∧
      slotBound d item.nodeId item.property item.index := by
  by_cases hv : env.varExists vid = true
  · refine ⟨hv, ?_⟩
    rcases hnode : doc item.nodeId with - | node
    · rw [applyStep, if_neg (by rw [hv]; exact fun hc => Bool.noConfusion hc),
        hnode] at h
      simp at h
    · rw [applyStep_eval env doc item vid node hv hnode] at h
      rcases hgp : getPaints node item.property with - | paints
      · rw [hgp] at h
        simp at h
      · rw [hgp] at h
        dsimp only at h
        by_cases hb : (docBoundAt paints item.index).isSome
        · rw [if_pos hb] at h
          simp at h
        · rw [if_neg hb] at h
          rcases hpi : paints[item.index]? with - | paint
          · rw [hpi] at h
            simp at h
          · rw [hpi] at h
            dsimp only at h
            by_cases hs : paint.isSolid = false
            · rw [if_pos hs] at h
              simp at h
            · rw [if_neg hs] at h
              rcases hbf : env.bindFails vid paint with - | msg
              · rw [setBoundVariableForPaint, hbf] at h
                dsimp only at h
                rw [Prod.mk.injEq] at h
                obtain ⟨hd, -⟩ := h
                refine ⟨setPaints node item.property
                  (paints.set item.index { paint with boundVar := some vid }),
                  paints.set item.index { paint with boundVar := some vid },
                  { paint with boundVar := some vid }, ?_, ?_, ?_, rfl⟩
                · rw [← hd, updateDoc, if_pos rfl]
                · exact getPaints_setPaints _ _ _
                · exact List.getElem?_set_self (List.getElem?_eq_some.mp hpi).1
              · rw [setBoundVariableForPaint, hbf] at h
                dsimp only at h
                simp at h
  · rw [applyStep, if_pos (by simpa using hv)] at h
    simp at h

/-- Once a slot is bound, no later step ever unbinds it. -/
theorem slotBound_mono (env : ApplyEnv) {doc : Doc} {nid : String}
    {property : PaintProp} {idx : ℕ}
    (hsb : slotBound doc nid property idx) (item : ScanItem) (vid : String) :
    slotBound (applyStep env doc item vid).1 nid property idx := by
  rcases applyStep_doc env doc item vid with hd |
    ⟨node, paints, np, hnode, hgp, hlen, hbv, hd⟩
  · rw [hd]; exact hsb
  · rw [hd]
    obtain ⟨n0, ps0, p0, hn0, hgp0, hpi0, hb0⟩ := hsb
    by_cases hid : nid = item.nodeId
    · subst hid
      rw [hnode] at hn0
      obtain rfl : n0 = node := Option.some.inj hn0.symm ▸ rfl
      by_cases hprop : property = item.property
      · subst hprop
        rw [hgp] at hgp0
        obtain rfl : ps0 = paints := by
          injection hgp0 with hq
          exact hq.symm
        by_cases hidx : idx = item.index
        · subst hidx
          exact ⟨_, _, np, by rw [updateDoc, if_pos rfl],
            getPaints_setPaints _ _ _, List.getElem?_set_self hlen,
            by rw [hbv]; rfl⟩
        · exact ⟨_, _, p0, by rw [updateDoc, if_pos rfl],
            getPaints_setPaints _ _ _,
            by rw [List.getElem?_set_ne (fun hq => hidx hq.symm)]; exact hpi0,
            hb0⟩
      · refine ⟨_, ps0, p0, by rw [updateDoc, if_pos rfl], ?_, hpi0, hb0⟩
        rw [getPaints_setPaints_ne _ hprop]
        exact hgp0
    · refine ⟨n0, ps0, p0, ?_, hgp0, hpi0, hb0⟩
      rw [updateDoc, if_neg hid]
      exact hn0

/-- A step on an already-bound slot is a Skip that leaves the document
unchanged. -/
theorem applyStep_skips_bound {env : ApplyEnv} {doc : Doc} {item : ScanItem}
    {vid : String} (hv : env.varExists vid = true)
    (hsb : slotBound doc item.nodeId item.property item.index) :
    applyStep env doc item vid = (doc, Outcome.skipped) := by
  obtain ⟨node, paints, paint, hnode, hgp, hpi, hb⟩ := hsb
  rw [applyStep_eval env doc item vid node hv hnode, hgp]
  dsimp only
  rw [if_pos (by simpa [docBoundAt, hpi] using hb)]

theorem applyItemsGo_cons (env : ApplyEnv) (doc : Doc)
    (iv : ScanItem × String) (rest : List (ScanItem × String)) :
    applyItemsGo env doc (iv :: rest) =
      ((applyItemsGo env (applyStep env doc iv.1 iv.2).1 rest).1,
        (applyStep env doc iv.1 iv.2).2 ::
          (applyItemsGo env (applyStep env doc iv.1 iv.2).1 rest).2) := rfl

theorem applyItemsGo_mono (env : ApplyEnv) {nid : String}
    {property : PaintProp} {idx : ℕ} :
    ∀ (l : List (ScanItem × String)) {doc : Doc},
      slotBound doc nid property idx →
      slotBound (applyItemsGo env doc l).1 nid property idx := by
  intro l
  induction l with
  | nil => intro doc hsb; exact hsb
  | cons iv rest ih =>
    intro doc hsb
    rw [applyItemsGo_cons]
    exact ih (slotBound_mono env hsb iv.1 iv.2)

theorem applyItemsGo_applied_bound (env : ApplyEnv) :
    ∀ (l : List (ScanItem × String)) (doc : Doc) (k : ℕ) (item : ScanItem)
      (vid : String),
      l[k]? = some (item, vid) →
      ((applyItemsGo env doc l).2)[k]? = some Outcome.applied →
      env.varExists vid = true ∧
        slotBound (applyItemsGo env doc l).1 item.nodeId item.property
          item.index := by
  intro l
  induction l with
  | nil =>
    intro doc k item vid hk
    simp at hk
  | cons iv rest ih =>
    intro doc k item vid hk ho
    rw [applyItemsGo_cons] at ho ⊢
    cases k with
    | zero =>
      simp only [List.getElem?_cons_zero] at hk ho
      obtain rfl : iv = (item, vid) := by injection hk
      have hstep : applyStep env doc item vid =
          ((applyStep env doc item vid).1, Outcome.applied) :=
        Prod.ext rfl (by injection ho)
      obtain ⟨hv, hsb⟩ := applyStep_applied_bound hstep
      exact ⟨hv, applyItemsGo_mono env rest hsb⟩
    | succ k =>
      simp only [List.getElem?_cons_succ] at hk ho
      exact ih _ k item vid hk ho

theorem applyItemsGo_bound_skips (env : ApplyEnv) :
    ∀ (l : List (ScanItem × String)) (doc : Doc) (k : ℕ) (item : ScanItem)
      (vid : String),
      l[k]? = some (item, vid) →
      env.varExists vid = true →
      slotBound doc item.nodeId item.property item.index →
      ((applyItemsGo env doc l).2)[k]? = some Outcome.skipped := by
  intro l
  induction l with
  | nil =>
    intro doc k item vid hk
    simp at hk
  | cons iv rest ih =>
    intro doc k item vid hk hv hsb
    rw [applyItemsGo_cons]
    cases k with
    | zero =>
      simp only [List.getElem?_cons_zero] at hk ⊢
      obtain rfl : iv = (item, vid) := by injection hk
      rw [applyStep_skips_bound hv hsb]
    | succ k =>
      simp only [List.getElem?_cons_succ] at hk ⊢
      exact ih _ k item vid hk hv (slotBound_mono env hsb iv.1 iv.2)

/-- C4: applying the same matched scan result a second time reports every
previously-Applied item as Skipped: once the first `applyBindingsToItems`
run has bound an item's slot, the slot carries a bound variable reference,
binding is never undone by later items, and the second run's re-validation
therefore skips it. -/
theorem applyBindings_idempotent (env : ApplyEnv) (doc : Doc)
    (items : List ScanItem) (k : ℕ)
    (h : ((applyItemsGo env doc (matchedItems items)).2)[k]? =
      some Outcome.applied) :
    ((applyItemsGo env (applyBindingsToItems env doc items).1
      (matchedItems items)).2)[k]? = some Outcome.skipped := by
  have hk : k < (matchedItems items).length := by
    have h1 := applyItemsGo_length env doc (matchedItems items)
    have h2 := (List.getElem?_eq_some.mp h).1
    omega
  have hkv : (matchedItems items)[k]? = some ((matchedItems items)[k]) :=
    List.getElem?_eq_some.mpr ⟨hk, rfl⟩
  rcases hiv : (matchedItems items)[k] with ⟨item, vid⟩
  rw [hiv] at hkv
  obtain ⟨hv, hsb⟩ :=
    applyItemsGo_applied_bound env (matchedItems items) doc k item vid hkv h
  have h1 : (applyBindingsToItems env doc items).1 =
      (applyItemsGo env doc (matchedItems items)).1 := rfl
  rw [h1]
  exact applyItemsGo_bound_skips env (matchedItems items) _ k item vid hkv hv hsb

/-- C4 (witness): the idempotence theorem at a concrete environment: the
first run applies the single matched item, the second run skips it. -/
theorem applyBindings_idempotent_witness :
    ((applyItemsGo ⟨fun _ => true, fun _ _ => none⟩
        (fun s => if s = "n1" then
          some ⟨"a", some [⟨true, ⟨0, 0, 0⟩, some 1, none⟩], none⟩ else none)
        (matchedItems
          [⟨"n1", "a", .fills, 0, ⟨0, 0, 0⟩, 1, some "v", some "tok"⟩])).2)[0]? =
      some Outcome.applied ∧
    ((applyItemsGo ⟨fun _ => true, fun _ _ => none⟩
        (applyBindingsToItems ⟨fun _ => true, fun _ _ => none⟩
          (fun s => if s = "n1" then
            some ⟨"a", some [⟨true, ⟨0, 0, 0⟩, some 1, none⟩], none⟩ else none)
          [⟨"n1", "a", .fills, 0, ⟨0, 0, 0⟩, 1, some "v", some "tok"⟩]).1
        (matchedItems
          [⟨"n1", "a", .fills, 0, ⟨0, 0, 0⟩, 1, some "v", some "tok"⟩])).2)[0]? =
      some Outcome.skipped :=
  ⟨rfl,
    applyBindings_idempotent ⟨fun _ => true, fun _ _ => none⟩
      (fun s => if s = "n1" then
        some ⟨"a", some [⟨true, ⟨0, 0, 0⟩, some 1, none⟩], none⟩ else none)
      [⟨"n1", "a", .fills, 0, ⟨0, 0, 0⟩, 1, some "v", some "tok"⟩] 0 rfl⟩

theorem find?_append_some {α} (p : α → Bool) {l1 : List α} (l2 : List α)
    {a : α} (h : l1.find? p = some a) : (l1 ++ l2).find? p = some a := by
  induction l1 with
  | nil => simp [List.find?] at h
  | cons x xs ih =>
    cases hp : p x with
    | true =>
      simp only [List.cons_append, List.find?, hp] at h ⊢
      exact h
    | false =>
      simp only [List.cons_append, List.find?, hp] at h ⊢
      exact ih h

theorem find?_append_none {α} (p : α → Bool) {l1 : List α} (l2 : List α)
    (h : l1.find? p = none) : (l1 ++ l2).find? p = l2.find? p := by
  induction l1 with
  | nil => rfl
  | cons x xs ih =>
    cases hp : p x with
    | true =>
      simp only [List.cons_append, List.find?, hp] at h ⊢
      simp at h
    | false =>
      simp only [List.cons_append, List.find?, hp] at h ⊢
      exact ih h

theorem mapFind_append_right {m : KeyMap} {k : ExactKey} {e : ColorMapEntry}
    (x : ExactKey × ColorMapEntry) (h : mapFind m k = some e) :
    mapFind (m ++ [x]) k = some e := by
  rw [mapFind] at h ⊢
  rcases hf : m.find? (fun p => p.1 == k) with - | pr
  · rw [hf] at h
    simp at h
  · rw [find?_append_some _ _ hf]
    rw [hf] at h
    exact h

theorem mapHas_append_right {m : KeyMap} {k : ExactKey}
    (x : ExactKey × ColorMapEntry) (h : mapHas m k = true) :
    mapHas (m ++ [x]) k = true := by
  rw [mapHas] at h ⊢
  rcases hf : m.find? (fun p => p.1 == k) with - | pr
  · rw [hf] at h
    simp at h
  · rw [find?_append_some _ _ hf]
    rfl

/-- The filtered indexing step never removes or overwrites a binding. -/
theorem colorMapStepFiltered_preserves {env : CatalogEnv} {modeId p : String}
    {m : KeyMap} {vid : String} {k : ExactKey} {e : ColorMapEntry}
    (h : mapFind m k = some e) :
    mapFind (colorMapStepFiltered env modeId p m vid) k = some e := by
  rw [colorMapStepFiltered]
  rcases hv : env.getVar vid with - | v
  · exact h
  · dsimp only
    by_cases hc : v.isColor = false
    · rw [if_pos hc]; exact h
    · rw [if_neg hc]
      by_cases hm : matchesPfx v.name p = false
      · rw [if_pos hm]; exact h
      · rw [if_neg hm]
        rcases hval : lookupValue v modeId with - | w
        · exact h
        · rcases w with ⟨r, g, b, a⟩ | -
          · dsimp only
            by_cases hhas : mapHas m (rgbOpacityKey r g b (some (a.getD 1))) = true
            · rw [if_pos hhas]; exact h
            · rw [if_neg hhas]
              exact mapFind_append_right _ h
          · exact h

theorem colorMapStepFiltered_has {env : CatalogEnv} {modeId p : String}
    {m : KeyMap} {vid : String} {k : ExactKey}
    (h : mapHas m k = true) :
    mapHas (colorMapStepFiltered env modeId p m vid) k = true := by
  rw [colorMapStepFiltered]
  rcases hv : env.getVar vid with - | v
  · exact h
  · dsimp only
    by_cases hc : v.isColor = false
    · rw [if_pos hc]; exact h
    · rw [if_neg hc]
      by_cases hm : matchesPfx v.name p = false
      · rw [if_pos hm]; exact h
      · rw [if_neg hm]
        rcases hval : lookupValue v modeId with - | w
        · exact h
        · rcases w with ⟨r, g, b, a⟩ | -
          · dsimp only
            by_cases hhas : mapHas m (rgbOpacityKey r g b (some (a.getD 1))) = true
            · rw [if_pos hhas]; exact h
            · rw [if_neg hhas]
              exact mapHas_append_right _ h
          · exact h

theorem colorMapPass_preserves {env : CatalogEnv} {modeId p : String}
    (ids : List String) {m : KeyMap} {k : ExactKey} {e : ColorMapEntry}
    (h : mapFind m k = some e) :
    mapFind (ids.foldl (colorMapStepFiltered env modeId p) m) k = some e := by
  induction ids generalizing m with
  | nil => exact h
  | cons vid rest ih =>
    rw [List.foldl_cons]
    exact ih (colorMapStepFiltered_preserves h)

theorem colorMapPass_has {env : CatalogEnv} {modeId p : String}
    (ids : List String) {m : KeyMap} {k : ExactKey}
    (h : mapHas m k = true) :
    mapHas (ids.foldl (colorMapStepFiltered env modeId p) m) k = true := by
  induction ids generalizing m with
  | nil => exact h
  | cons vid rest ih =>
    rw [List.foldl_cons]
    exact ih (colorMapStepFiltered_has h)

theorem mapFind_isSome_of_has {m : KeyMap} {k : ExactKey}
    (h : mapHas m k = true) : ∃ e, mapFind m k = some e := by
  rw [mapHas] at h
  rcases hf : m.find? (fun p => p.1 == k) with - | pr
  · rw [hf] at h; simp at h
  · exact ⟨pr.2, by rw [mapFind, hf]; rfl⟩

theorem mapFind_append_singleton {m : KeyMap} {key k : ExactKey}
    {v e : ColorMapEntry} (h : mapFind (m ++ [(key, v)]) k = some e) :
    mapFind m k = some e ∨ (key = k ∧ v = e) := by
  rcases hf : m.find? (fun p => p.1 == k) with - | pr
  · right
    rw [mapFind, find?_append_none _ _ hf] at h
    by_cases hk : key = k
    · refine ⟨hk, ?_⟩
      have hb : (key == k) = true := beq_iff_eq.mpr hk
      simp [List.find?, hb] at h
      exact h
    · exfalso
      have hb : (key == k) = false := beq_eq_false_iff_ne.mpr hk
      simp [List.find?, hb] at h
  · left
    rw [mapFind, find?_append_some _ _ hf] at h
    rw [mapFind, hf]
    exact h

/-- An entry found after one filtered step either was already present or
matches the pass's prefix. -/
theorem colorMapStepFiltered_provenance {env : CatalogEnv} {modeId p : String}
    {m : KeyMap} {vid : String} {k : ExactKey} {e : ColorMapEntry}
    (h : mapFind (colorMapStepFiltered env modeId p m vid) k = some e) :
    mapFind m k = some e ∨ matchesPfx e.varRef.name p = true := by
  rw [colorMapStepFiltered] at h
  rcases hv : env.getVar vid with - | v
  · rw [hv] at h; exact .inl h
  · rw [hv] at h
    dsimp only at h
    by_cases hc : v.isColor = false
    · rw [if_pos hc] at h; exact .inl h
    · rw [if_neg hc] at h
      by_cases hm : matchesPfx v.name p = false
      · rw [if_pos hm] at h; exact .inl h
      · rw [if_neg hm] at h
        rcases hval : lookupValue v modeId with - | w
        · rw [hval] at h; exact .inl h
        · rw [hval] at h
          rcases w with ⟨r, g, b, a⟩ | -
          · dsimp only at h
            by_cases hhas :
                mapHas m (rgbOpacityKey r g b (some (a.getD 1))) = true
            · rw [if_pos hhas] at h; exact .inl h
            · rw [if_neg hhas] at h
              rcases mapFind_append_singleton h with h' | ⟨-, hv'⟩
              · exact .inl h'
              · right
                rw [← hv']
                exact eq_true_of_ne_false hm
          · exact .inl h

theorem colorMapPass_provenance {env : CatalogEnv} {modeId p : String}
    (ids : List String) {m : KeyMap} {k : ExactKey} {e : ColorMapEntry}
    (h : mapFind (ids.foldl (colorMapStepFiltered env modeId p) m) k = some e) :
    mapFind m k = some e ∨ matchesPfx e.varRef.name p = true := by
  induction ids generalizing m with
  | nil => exact .inl h
  | cons vid rest ih =>
    rw [List.foldl_cons] at h
    rcases ih h with h' | h'
    · exact colorMapStepFiltered_provenance h'
    · exact .inr h'

theorem mapHas_append_self (m : KeyMap) (k : ExactKey) (v : ColorMapEntry) :
    mapHas (m ++ [(k, v)]) k = true := by
  rcases hf : m.find? (fun p => p.1 == k) with - | pr
  · rw [mapHas, find?_append_none _ _ hf]
    simp [List.find?]
  · exact mapHas_append_right _ (by rw [mapHas, hf]; rfl)

/-- A matching color variable's key is present right after its own filtered
step. -/
theorem colorMapStepFiltered_inserts {env : CatalogEnv} {modeId p : String}
    (m : KeyMap) {vid : String} {v : FigVariable} {r g b : ℚ} {a : Option ℚ}
    (hv : env.getVar vid = some v) (hc : v.isColor = true)
    (hm : matchesPfx v.name p = true)
    (hval : lookupValue v modeId = some (.colorV r g b a)) :
    mapHas (colorMapStepFiltered env modeId p m vid)
      (rgbOpacityKey r g b (some (a.getD 1))) = true := by
  rw [colorMapStepFiltered, hv]
  dsimp only
  rw [if_neg (by rw [hc]; exact Bool.noConfusion),
    if_neg (by rw [hm]; exact Bool.noConfusion), hval]
  dsimp only
  by_cases hhas : mapHas m (rgbOpacityKey r g b (some (a.getD 1))) = true
  · rw [if_pos hhas]; exact hhas
  · rw [if_neg hhas]
    exact mapHas_append_self m _ _

/-- Completeness of one filtered pass: a matching color variable's key is
present after the pass over any id list containing it. -/
theorem colorMapPass_complete {env : CatalogEnv} {modeId p : String}
    (ids : List String) (m : KeyMap) {vid : String} {v : FigVariable}
    {r g b : ℚ} {a : Option ℚ}
    (hmem : vid ∈ ids) (hv : env.getVar vid = some v) (hc : v.isColor = true)
    (hm : matchesPfx v.name p = true)
    (hval : lookupValue v modeId = some (.colorV r g b a)) :
    mapHas (ids.foldl (colorMapStepFiltered env modeId p) m)
      (rgbOpacityKey r g b (some (a.getD 1))) = true := by
  induction ids generalizing m with
  | nil => cases hmem
  | cons x rest ih =>
    rw [List.foldl_cons]
    rcases List.mem_cons.mp hmem with heq | hmem'
    · subst heq
      exact colorMapPass_has rest
        (colorMapStepFiltered_inserts m hv hc hm hval)
    · exact ih _ hmem'

/-- Folding the remaining prefix passes preserves every existing binding. -/
theorem colorMapPasses_preserves {env : CatalogEnv} {modeId : String}
    (ps : List String) (ids : List String) {m : KeyMap} {k : ExactKey}
    {e : ColorMapEntry} (h : mapFind m k = some e) :
    mapFind (ps.foldl
      (fun acc p => ids.foldl (colorMapStepFiltered env modeId p) acc) m) k
      = some e := by
  induction ps generalizing m with
  | nil => exact h
  | cons p rest ih =>
    rw [List.foldl_cons]
    exact ih (colorMapPass_preserves ids h)

theorem varListStep_mem {env : CatalogEnv} {modeId : String}
    {pm : Option (List String)} {l : List VarListEntry} {vid : String}
    {x : VarListEntry} (h : x ∈ l) : x ∈ varListStep env modeId pm l vid := by
  rw [varListStep]
  rcases env.getVar vid with - | v
  · exact h
  · dsimp only
    by_cases hc : v.isColor = false
    · rw [if_pos hc]; exact h
    · rw [if_neg hc]
      by_cases hp : (match pm with
          | none => true
          | some ps => ps.any (fun p => matchesPfx v.name p)) = false
      · rw [if_pos hp]; exact h
      · rw [if_neg hp]
        rcases lookupValue v modeId with - | w
        · exact h
        · rcases w with ⟨r, g, b, a⟩ | -
          · exact List.mem_append_left _ h
          · exact h

theorem varList_fold_mem_of_mem {env : CatalogEnv} {modeId : String}
    {pm : Option (List String)} (ids : List String) {l : List VarListEntry}
    {x : VarListEntry} (h : x ∈ l) :
    x ∈ ids.foldl (varListStep env modeId pm) l := by
  induction ids generalizing l with
  | nil => exact h
  | cons vid rest ih =>
    rw [List.foldl_cons]
    exact ih (varListStep_mem h)

/-- Completeness of the candidate-list fold: a color variable matching one of
the prefixes contributes its entry. -/
theorem varList_fold_complete {env : CatalogEnv} {modeId : String}
    {ps : List String} (ids : List String) (l : List VarListEntry)
    {vid : String} {v : FigVariable} {r g b : ℚ} {a : Option ℚ}
    (hmem : vid ∈ ids) (hv : env.getVar vid = some v) (hc : v.isColor = true)
    (hm : ps.any (fun p => matchesPfx v.name p) = true)
    (hval : lookupValue v modeId = some (.colorV r g b a)) :
    (⟨v.id, v.name, r, g, b⟩ : VarListEntry) ∈
      ids.foldl (varListStep env modeId (some ps)) l := by
  induction ids generalizing l with
  | nil => cases hmem
  | cons x rest ih =>
    rw [List.foldl_cons]
    rcases List.mem_cons.mp hmem with heq | hmem'
    · subst heq
      refine varList_fold_mem_of_mem rest ?_
      rw [varListStep, hv]
      dsimp only
      rw [if_neg (by rw [hc]; exact Bool.noConfusion),
        if_neg (by rw [hm]; exact Bool.noConfusion), hval]
      exact List.mem_append_right _ (List.mem_singleton.mpr rfl)
    · exact ih _ hmem'

/-- C5: when a group filter is supplied, `getCollectionColorMap` inserts into
the exact map only if the key is absent, prefix-group by prefix-group — but
only over the FIRST TWO prefixes of the filter (code.ts line 121), not the
whole ordered list.  For the head prefix the priority property holds: every
key reachable from a head-prefix color variable is bound, and bound to an
entry whose name matches the head prefix.  The candidate list
(`getCollectionVariableList`, cache miss) still contains every entry whose
name matches at least one of ALL the supplied prefixes. -/
theorem colorMap_group_filter_priority
    (env : CatalogEnv) (cache : VarListCache) (collectionName mode : String)
    (ps : List String) (collection : Collection) (modeId p0 : String)
    (rest : List String)
    (hfound : findVariableCollectionByName env collectionName =
      .ok (some (.localC collection)))
    (hmode : resolveModeId collection mode = some modeId)
    (hps : filterOrder ps = p0 :: rest)
    (hcache : cacheFind cache
      (listCacheKey collectionName mode true (some ps)) = none) :
    (∀ vid v r g b a, vid ∈ collection.variableIds →
        env.getVar vid = some v → v.isColor = true →
        matchesPfx v.name p0 = true →
        lookupValue v modeId = some (.colorV r g b a) →
        ∃ m e,
          getCollectionColorMap env collectionName mode ⟨true, ps⟩ = .ok m ∧
          mapFind m (rgbOpacityKey r g b (some (a.getD 1))) = some e ∧
          matchesPfx e.varRef.name p0 = true)
    ∧ (∀ vid v r g b a, vid ∈ collection.variableIds →
        env.getVar vid = some v → v.isColor = true →
        ps.any (fun p => matchesPfx v.name p) = true →
        lookupValue v modeId = some (.colorV r g b a) →
        ∃ l cache2,
          getCollectionVariableList env cache collectionName mode
            true (some ps) = .ok (l, cache2) ∧
          (⟨v.id, v.name, r, g, b⟩ : VarListEntry) ∈ l) := by
  constructor
  · intro vid v r g b a hmem hv hc hm hval
    have hmap : getCollectionColorMap env collectionName mode ⟨true, ps⟩ =
        .ok ((p0 :: rest).foldl
          (fun acc p => collection.variableIds.foldl
            (colorMapStepFiltered env modeId p) acc) []) := by
      rw [getCollectionColorMap, hfound]
      dsimp only
      rw [hmode]
      dsimp only
      rw [if_neg (by simp), hps]
    have hhas : mapHas (collection.variableIds.foldl
        (colorMapStepFiltered env modeId p0) [])
        (rgbOpacityKey r g b (some (a.getD 1))) = true :=
      colorMapPass_complete collection.variableIds [] hmem hv hc hm hval
    rcases mapFind_isSome_of_has hhas with ⟨e, he⟩
    refine ⟨_, e, hmap, ?_, ?_⟩
    · rw [List.foldl_cons]
      exact colorMapPasses_preserves rest collection.variableIds he
    · rcases colorMapPass_provenance collection.variableIds he with h0 | h0
      · simp [mapFind, List.find?] at h0
      · exact h0
  · intro vid v r g b a hmem hv hc hm hval
    have heq : getCollectionVariableList env cache collectionName mode
        true (some ps) =
        .ok (collection.variableIds.foldl (varListStep env modeId (some ps)) [],
          cacheSet cache (listCacheKey collectionName mode true (some ps))
            (collection.variableIds.foldl
              (varListStep env modeId (some ps)) [])) := by
      rw [getCollectionVariableList.eq_def]
      dsimp only
      rw [hcache, hfound]
      dsimp only
      rw [hmode]
    exact ⟨_, _, heq,
      varList_fold_complete collection.variableIds [] hmem hv hc hm hval⟩

/-- C5 counterexample: with a three-prefix filter, a color variable matching
only the third prefix is dropped from the exact map entirely (only the first
two prefixes are processed, code.ts line 121), while the candidate list keeps
it. -/
theorem getCollectionColorMap_third_prefix_dropped_ce :
    getCollectionColorMap
      ⟨.ok [⟨"Col", [⟨"M1", "m"⟩], ["v1"]⟩], [],
        fun vid => if vid = "v1" then
          some ⟨"v1", "C/x", true, [("M1", VarValue.colorV 1 0 0 (some 1))]⟩
        else none⟩
      "Col" "m" ⟨true, ["A/", "B/", "C/"]⟩ = .ok [] ∧
    matchesPfx "C/x" "C/" = true ∧
    getCollectionVariableList
      ⟨.ok [⟨"Col", [⟨"M1", "m"⟩], ["v1"]⟩], [],
        fun vid => if vid = "v1" then
          some ⟨"v1", "C/x", true, [("M1", VarValue.colorV 1 0 0 (some 1))]⟩
        else none⟩
      [] "Col" "m" true (some ["A/", "B/", "C/"]) =
      .ok ([⟨"v1", "C/x", 1, 0, 0⟩],
        [(listCacheKey "Col" "m" true (some ["A/", "B/", "C/"]),
          [⟨"v1", "C/x", 1, 0, 0⟩])]) :=
  ⟨rfl, rfl, rfl⟩

/-- C5 witness: a concrete environment where a head-prefix variable wins the
exact map and appears in the candidate list. -/
theorem colorMap_group_filter_priority_witness :
    (∃ m e,
      getCollectionColorMap
        ⟨.ok [⟨"Col", [⟨"M1", "m"⟩], ["v1"]⟩], [],
          fun vid => if vid = "v1" then
            some ⟨"v1", "Color/x", true,
              [("M1", VarValue.colorV 1 0 0 (some 1))]⟩
          else none⟩
        "Col" "m" ⟨true, ["Color/", "Black/"]⟩ = .ok m ∧
      mapFind m (rgbOpacityKey 1 0 0 (some (1 : ℚ))) = some e ∧
      matchesPfx e.varRef.name "Color/" = true)
    ∧ (∃ l cache2,
      getCollectionVariableList
        ⟨.ok [⟨"Col", [⟨"M1", "m"⟩], ["v1"]⟩], [],
          fun vid => if vid = "v1" then
            some ⟨"v1", "Color/x", true,
              [("M1", VarValue.colorV 1 0 0 (some 1))]⟩
          else none⟩
        [] "Col" "m" true (some ["Color/", "Black/"]) = .ok (l, cache2) ∧
      (⟨"v1", "Color/x", 1, 0, 0⟩ : VarListEntry) ∈ l) := by
  have H := colorMap_group_filter_priority
    ⟨.ok [⟨"Col", [⟨"M1", "m"⟩], ["v1"]⟩], [],
      fun vid => if vid = "v1" then
        some ⟨"v1", "Color/x", true,
          [("M1", VarValue.colorV 1 0 0 (some 1))]⟩
      else none⟩
    [] "Col" "m" ["Color/", "Black/"] ⟨"Col", [⟨"M1", "m"⟩], ["v1"]⟩
    "M1" "Color/" ["Black/"] rfl rfl rfl rfl
  exact ⟨H.1 "v1" ⟨"v1", "Color/x", true,
      [("M1", VarValue.colorV 1 0 0 (some 1))]⟩ 1 0 0 (some 1)
      (List.mem_singleton.mpr rfl) rfl rfl (by decide) rfl,
    H.2 "v1" ⟨"v1", "Color/x", true,
      [("M1", VarValue.colorV 1 0 0 (some 1))]⟩ 1 0 0 (some 1)
      (List.mem_singleton.mpr rfl) rfl rfl (by decide) rfl⟩

/-- C8: any input whose normalised form (optional leading `#` stripped, then
trimmed) does not have exactly 6 characters is rejected by `parseHexToRgb`,
and whenever the parse rejects, the `getCandidatesForHex` handler returns an
empty candidate list with the `"Invalid HEX"` error instead of failing.
(The 6-character check does NOT require the characters to be hex digits:
see the junk-suffix counterexample.) -/
theorem parseHexToRgb_invalid_handling :
    (∀ s : String, (jsTrim (stripHash s)).data.length ≠ 6 →
      parseHexToRgb s = none)
    ∧ ∀ (env : CatalogEnv) (cache : VarListCache)
        (msgHex collectionName mode : String) (ug : Bool),
        parseHexToRgb (jsTrim (stripHash msgHex)) = none →
        getCandidatesForHex env cache msgHex collectionName mode ug =
          (⟨jsTrim (stripHash msgHex), [], some "Invalid HEX"⟩, cache) := by
  constructor
  · intro s h
    rw [parseHexToRgb]
    rw [if_pos h]
  · intro env cache msgHex collectionName mode ug h
    rw [getCandidatesForHex]
    rw [h]

/-- C8 witness: `"ff00z"` (5 characters) is rejected, and a query for `"zz"`
answers with the empty list and `"Invalid HEX"`. -/
theorem parseHexToRgb_invalid_handling_witness :
    parseHexToRgb "ff00z" = none ∧
    getCandidatesForHex ⟨.ok [], [], fun _ => none⟩ [] "zz" "Col" "m" false =
      (⟨"zz", [], some "Invalid HEX"⟩, []) := by
  have H := parseHexToRgb_invalid_handling
  exact ⟨H.1 "ff00z" (by decide),
    H.2 ⟨.ok [], [], fun _ => none⟩ [] "zz" "Col" "m" false (by decide)⟩

/-- C9: `runScan` converts failures into results instead of raising: a
catalog-access error is returned as a zero-item `ScanResult` carrying the
underlying message, and an empty catalog yields a zero-item `ScanResult`
with the descriptive empty-catalog error string. -/
theorem runScan_error_handling (env : ScanEnv) (collectionName mode : String)
    (ug : Bool) :
    (∀ e, getCollectionColorMap env.cat collectionName mode
        ⟨ug, GROUP_FILTER_PREFIXES⟩ = .error e →
      runScan env collectionName mode ug = ⟨[], [], [], 0, some e⟩)
    ∧ ∀ m, getCollectionColorMap env.cat collectionName mode
        ⟨ug, GROUP_FILTER_PREFIXES⟩ = .ok m → m.length = 0 →
      runScan env collectionName mode ug =
        ⟨[], [], [], 0, some (emptyCatalogError collectionName ug)⟩ := by
  constructor
  · intro e he
    rw [runScan, he]
  · intro m hm hlen
    rw [runScan, hm]
    dsimp only
    rw [if_pos hlen]

/-- C9 witness: a rejecting collection host yields the message as the scan
error; an empty document yields the descriptive empty-catalog error. -/
theorem runScan_error_handling_witness :
    runScan ⟨⟨.error "boom", [], fun _ => none⟩, [],
        .mk "p" "page" none none []⟩ "Col" "m" false =
      ⟨[], [], [], 0, some "boom"⟩ ∧
    runScan ⟨⟨.ok [], [], fun _ => none⟩, [],
        .mk "p" "page" none none []⟩ "Col" "m" false =
      ⟨[], [], [], 0, some (emptyCatalogError "Col" false)⟩ :=
  ⟨(runScan_error_handling ⟨⟨.error "boom", [], fun _ => none⟩, [],
      .mk "p" "page" none none []⟩ "Col" "m" false).1 "boom" rfl,
    (runScan_error_handling ⟨⟨.ok [], [], fun _ => none⟩, [],
      .mk "p" "page" none none []⟩ "Col" "m" false).2 [] rfl rfl⟩

/-- The merge loop of `getAvailableCollectionNames` never drops an
accumulated name. -/
theorem addLibNames_acc_mem (libNames : List String) :
    ∀ (seen acc : List String) (x : String), x ∈ acc →
      x ∈ addLibNames seen acc libNames := by
  induction libNames with
  | nil => intro seen acc x hx; exact hx
  | cons n rest ih =>
    intro seen acc x hx
    rw [addLibNames]
    by_cases hs : jsToLower (jsTrim n) ∈ seen
    · rw [if_pos hs]
      exact ih seen acc x hx
    · rw [if_neg hs]
      exact ih _ _ x (List.mem_append_left _ hx)

/-- The merge loop of `getAvailableCollectionNames` covers every library
name (up to trim/lower-casing), given that every already-seen key is covered
by the accumulator. -/
theorem addLibNames_covers (libNames : List String) :
    ∀ (seen acc : List String) (w : String),
      (w ∈ seen → ∃ n ∈ acc, jsToLower (jsTrim n) = w) →
      ((∃ ln ∈ libNames, jsToLower (jsTrim ln) = w) ∨ w ∈ seen) →
      ∃ n ∈ addLibNames seen acc libNames, jsToLower (jsTrim n) = w := by
  induction libNames with
  | nil =>
    intro seen acc w hinv hsrc
    rcases hsrc with ⟨ln, hln, -⟩ | hw
    · cases hln
    · rcases hinv hw with ⟨n, hn, hnw⟩
      exact ⟨n, hn, hnw⟩
  | cons m rest ih =>
    intro seen acc w hinv hsrc
    rw [addLibNames]
    by_cases hs : jsToLower (jsTrim m) ∈ seen
    · rw [if_pos hs]
      refine ih seen acc w hinv ?_
      rcases hsrc with ⟨ln, hln, hlnw⟩ | hw
      · rcases List.mem_cons.mp hln with heq | hln'
        · subst heq
          exact .inr (hlnw ▸ hs)
        · exact .inl ⟨ln, hln', hlnw⟩
      · exact .inr hw
    · rw [if_neg hs]
      refine ih _ _ w ?_ ?_
      · intro hw
        rcases List.mem_append.mp hw with hw' | hw'
        · rcases hinv hw' with ⟨n, hn, hnw⟩
          exact ⟨n, List.mem_append_left _ hn, hnw⟩
        · refine ⟨m, List.mem_append_right _ (List.mem_singleton.mpr rfl), ?_⟩
          exact (List.mem_singleton.mp hw').symm
      · rcases hsrc with ⟨ln, hln, hlnw⟩ | hw
        · rcases List.mem_cons.mp hln with heq | hln'
          · subst heq
            exact .inr (List.mem_append_right _
              (List.mem_singleton.mpr hlnw.symm))
          · exact .inl ⟨ln, hln', hlnw⟩
        · exact .inr (List.mem_append_left _ hw)

/-- C10: when the requested name resolves only to a library collection, the
lookup still "finds" it, yet `getCollectionColorMap` returns the empty map,
`getCollectionVariableList` (cache miss) returns the empty list with the
cache untouched, a scan yields the empty-catalog error result, candidate
queries return no candidates, and the collection's name still appears
(case-insensitively) in `getAvailableCollectionNames`. -/
theorem library_collection_contributes_nothing
    (env : CatalogEnv) (collectionName mode : String) (lc : LibCollection)
    (locals : List Collection)
    (hne : ¬ jsToLower (jsTrim collectionName) = "")
    (hlocals : env.localsE = .ok locals)
    (hnofind : locals.find? (fun c => jsToLower (jsTrim c.name) ==
      jsToLower (jsTrim collectionName)) = none)
    (hlibfind : env.libs.find? (fun c => jsToLower (jsTrim c.name) ==
      jsToLower (jsTrim collectionName)) = some lc) :
    findVariableCollectionByName env collectionName =
      .ok (some (.libraryC lc)) ∧
    (∀ options, getCollectionColorMap env collectionName mode options =
      .ok []) ∧
    (∀ (cache : VarListCache) (ug : Bool) (gpf : Option (List String)),
      cacheFind cache (listCacheKey collectionName mode ug gpf) = none →
      getCollectionVariableList env cache collectionName mode ug gpf =
        .ok ([], cache)) ∧
    (∀ (selection : List SNode) (page : SNode) (ug : Bool),
      runScan ⟨env, selection, page⟩ collectionName mode ug =
        ⟨[], [], [], 0, some (emptyCatalogError collectionName ug)⟩) ∧
    (∀ (cache : VarListCache) (msgHex : String) (rgb : RGB) (ug : Bool),
      parseHexToRgb (jsTrim (stripHash msgHex)) = some rgb →
      cacheFind cache (listCacheKey collectionName mode ug none) = none →
      getCandidatesForHex env cache msgHex collectionName mode ug =
        (⟨jsTrim (stripHash msgHex), [], none⟩, cache)) ∧
    (∃ names, getAvailableCollectionNames env = .ok names ∧
      ∃ n ∈ names,
        jsToLower (jsTrim n) = jsToLower (jsTrim collectionName)) := by
  have hfound : findVariableCollectionByName env collectionName =
      .ok (some (.libraryC lc)) := by
    rw [findVariableCollectionByName.eq_def]
    dsimp only
    rw [if_neg hne, hlocals]
    dsimp only
    rw [hnofind]
    dsimp only
    rw [hlibfind]
  have hmap : ∀ options,
      getCollectionColorMap env collectionName mode options = .ok [] := by
    intro options
    rw [getCollectionColorMap, hfound]
  have hlist : ∀ (cache : VarListCache) (ug : Bool)
      (gpf : Option (List String)),
      cacheFind cache (listCacheKey collectionName mode ug gpf) = none →
      getCollectionVariableList env cache collectionName mode ug gpf =
        .ok ([], cache) := by
    intro cache ug gpf hc
    rw [getCollectionVariableList.eq_def]
    dsimp only
    rw [hc, hfound]
  refine ⟨hfound, hmap, hlist, ?_, ?_, ?_⟩
  · intro selection page ug
    rw [runScan, hmap ⟨ug, GROUP_FILTER_PREFIXES⟩]
    rfl
  · intro cache msgHex rgb ug hparse hc
    rw [getCandidatesForHex, hparse]
    dsimp only
    rw [hlist cache ug none hc]
    rfl
  · rw [getAvailableCollectionNames, hlocals]
    dsimp only
    refine ⟨_, rfl, ?_⟩
    have hmemlib : lc ∈ env.libs := List.mem_of_find?_eq_some hlibfind
    have hpred := List.find?_some hlibfind
    simp only [beq_iff_eq] at hpred
    have hw : jsToLower (jsTrim lc.name) = jsToLower (jsTrim collectionName) :=
      hpred
    refine addLibNames_covers (env.libs.map (·.name)) _ _ _ ?_ ?_
    · intro hsw
      exfalso
      rcases List.mem_map.mp hsw with ⟨nm, hnm, hnml⟩
      rcases List.mem_map.mp hnm with ⟨c, hc, rfl⟩
      have := List.find?_eq_none.mp hnofind c hc
      simp only [beq_iff_eq] at this
      exact this hnml
    · exact .inl ⟨lc.name, List.mem_map_of_mem (·.name) hmemlib, hw⟩

/-- C10 witness: a library-only environment whose sole collection `"Lib"` is
found, contributes nothing, and still shows up in the name list. -/
theorem library_collection_contributes_nothing_witness :
    findVariableCollectionByName ⟨.ok [], [⟨"Lib"⟩], fun _ => none⟩ "Lib" =
      .ok (some (.libraryC ⟨"Lib"⟩)) ∧
    getCollectionColorMap ⟨.ok [], [⟨"Lib"⟩], fun _ => none⟩ "Lib" "m"
      ⟨false, []⟩ = .ok [] ∧
    getCollectionVariableList ⟨.ok [], [⟨"Lib"⟩], fun _ => none⟩ [] "Lib" "m"
      false none = .ok ([], []) ∧
    runScan ⟨⟨.ok [], [⟨"Lib"⟩], fun _ => none⟩, [],
        .mk "p" "pg" none none []⟩ "Lib" "m" false =
      ⟨[], [], [], 0, some (emptyCatalogError "Lib" false)⟩ ∧
    getCandidatesForHex ⟨.ok [], [⟨"Lib"⟩], fun _ => none⟩ [] "ff0000" "Lib"
      "m" false = (⟨"ff0000", [], none⟩, []) ∧
    ∃ names, getAvailableCollectionNames ⟨.ok [], [⟨"Lib"⟩], fun _ => none⟩ =
      .ok names ∧
      ∃ n ∈ names, jsToLower (jsTrim n) = jsToLower (jsTrim "Lib") := by
  have H := library_collection_contributes_nothing
    ⟨.ok [], [⟨"Lib"⟩], fun _ => none⟩ "Lib" "m" ⟨"Lib"⟩ []
    (by decide) rfl rfl (by decide)
  have hp : parseHexToRgb (jsTrim (stripHash "ff0000")) =
      some ⟨(byteAt 16711680 16 : ℚ) / 255, (byteAt 16711680 8 : ℚ) / 255,
        (byteAt 16711680 0 : ℚ) / 255⟩ :=
    parseHexToRgb_eval (jsTrim (stripHash "ff0000")) 16711680
      (by decide) (by decide)
  exact ⟨H.1, H.2.1 ⟨false, []⟩, H.2.2.1 [] false none rfl,
    H.2.2.2.1 [] (.mk "p" "pg" none none []) false,
    H.2.2.2.2.1 [] "ff0000" _ false hp rfl, H.2.2.2.2.2⟩
